import Mathlib

/-
  Verification development for a tree-walking interpreter (lexer, Pratt
  parser, evaluator with lexical environments), shallowly embedded from the
  Rust sources in src/.

  Modelling conventions:
  * The Rust lexer iterates a `Peekable<Chars>`; we model it as the list of
    remaining characters plus the current character `ch`.
  * Operations that can panic or diverge in Rust are embedded as
    `Option`-valued functions where `none` means "no value is ever returned"
    (a panic or an infinite loop).  In particular `Lexer::new` unwraps the
    first character (panics on empty input), `read_ident` loops forever when
    the input ends while its character class still accepts the end-of-input
    sentinel '0', and integer division panics on a zero divisor.
  * Loops of the parser and the evaluator whose termination is not
    structural are given a fuel parameter; `none` also covers running out of
    fuel, so "the code terminates on this input" is stated as "some fuel
    yields `some`", and "the code hangs" as "every fuel yields `none`".
  * Rust `i64` arithmetic is modelled on `Int`; none of the programs
    considered here approaches the `i64` range, and the `i64` range check of
    `str::parse` is kept in `parse_integer_literal`.
  * Rust's `HashMap<String, Object>` is modelled as an association list with
    insert-or-replace; lookup and insertion agree with the HashMap, and no
    program considered here observes iteration order.
-/

/-! ## Tokens (src/tokens.rs) -/

inductive TokenType where
  | Illegal
  | EOF
  | Ident
  | Int
  | Assign
  | Plus
  | Minus
  | Bang
  | Asterisk
  | Slash
  | LessThan
  | GreaterThan
  | Equal
  | NotEqual
  | Comma
  | Semicolon
  | LParen
  | RParen
  | LBrace
  | RBrace
  | Function
  | Let
  | True
  | False
  | If
  | Else
  | Return
deriving DecidableEq, Repr

structure Token where
  t : TokenType
  v : String
deriving DecidableEq, Repr

def Token.new (t : TokenType) (v : String) : Token := ⟨t, v⟩

/-- Keyword reclassification: `impl From<&str> for Token` in src/tokens.rs. -/
def Token.fromIdent (value : String) : Token :=
  if value = "fn" then ⟨.Function, value⟩
  else if value = "let" then ⟨.Let, value⟩
  else if value = "true" then ⟨.True, value⟩
  else if value = "false" then ⟨.False, value⟩
  else if value = "if" then ⟨.If, value⟩
  else if value = "else" then ⟨.Else, value⟩
  else if value = "return" then ⟨.Return, value⟩
  else ⟨.Ident, value⟩

/-! ## Lexer (src/lexer.rs) -/

structure Lexer where
  input : List Char
  ch : Char
deriving DecidableEq, Repr

/-- `Lexer::new` calls `.next().unwrap()` on the character iterator, so it
panics (`none`) on empty input. -/
def Lexer.new (s : String) : Option Lexer :=
  match s.data with
  | [] => none
  | c :: rest => some ⟨rest, c⟩

/-- `read_char`: advance to the next character, with `'0'` as the
end-of-input sentinel. -/
def read_char (l : Lexer) : Lexer :=
  match l.input with
  | [] => ⟨[], '0'⟩
  | c :: rest => ⟨rest, c⟩

/-- `peek_char`: look at the next character, `'0'` at end of input. -/
def peek_char (l : Lexer) : Char :=
  match l.input with
  | [] => '0'
  | c :: _ => c

def is_whitespace (c : Char) : Bool :=
  c = ' ' || c = '\t' || c = '\n' || c = '\r'

def is_letter (c : Char) : Bool :=
  ('a' ≤ c && c ≤ 'z') || ('A' ≤ c && c ≤ 'Z') || c = '_'

def is_digit (c : Char) : Bool :=
  '0' ≤ c && c ≤ '9'

/-- The loop of `eat_whitespace`, structurally on the remaining input. -/
def eat_whitespace_go : List Char → Char → Lexer
  | [], ch => if is_whitespace ch then ⟨[], '0'⟩ else ⟨[], ch⟩
  | c :: rest, ch =>
    if is_whitespace ch then eat_whitespace_go rest c else ⟨c :: rest, ch⟩

/-- `eat_whitespace`: skip blanks; at end of input `read_char` yields the
sentinel `'0'`, which is not whitespace, so the loop always terminates. -/
def eat_whitespace (l : Lexer) : Lexer :=
  eat_whitespace_go l.input l.ch

/-- `read_ident`: accumulate characters while `cond` holds.  When the input
is exhausted with `cond ch` still true, `read_char` pins `ch` to the
sentinel `'0'`; if `cond '0'` also holds (as for `is_digit`) the Rust loop
never exits, which we model as `none`. -/
def read_ident_go (cond : Char → Bool) :
    List Char → Char → String → Option (String × Lexer)
  | c :: rest, ch, acc =>
    if cond ch then read_ident_go cond rest c (acc.push ch)
    else some (acc, ⟨c :: rest, ch⟩)
  | [], ch, acc =>
    if cond ch then
      if cond '0' then none
      else some (acc.push ch, ⟨[], '0'⟩)
    else some (acc, ⟨[], ch⟩)

def read_ident (cond : Char → Bool) (l : Lexer) (acc : String) :
    Option (String × Lexer) :=
  read_ident_go cond l.input l.ch acc

/-- The dispatch on `self.ch` inside `Lexer::next_token`, after the
whitespace skip; named so lemmas can instantiate the current character. -/
def next_token_core (l : Lexer) : Option (Token × Lexer) :=
  if l.ch = '=' then
    if peek_char l = '=' then some (⟨.Equal, "=="⟩, read_char (read_char l))
    else some (⟨.Assign, String.singleton l.ch⟩, read_char l)
  else if l.ch = '+' then some (⟨.Plus, String.singleton l.ch⟩, read_char l)
  else if l.ch = '-' then some (⟨.Minus, String.singleton l.ch⟩, read_char l)
  else if l.ch = '!' then
    if peek_char l = '=' then some (⟨.NotEqual, "!="⟩, read_char (read_char l))
    else some (⟨.Bang, String.singleton l.ch⟩, read_char l)
  else if l.ch = '*' then some (⟨.Asterisk, String.singleton l.ch⟩, read_char l)
  else if l.ch = '/' then some (⟨.Slash, String.singleton l.ch⟩, read_char l)
  else if l.ch = '<' then some (⟨.LessThan, String.singleton l.ch⟩, read_char l)
  else if l.ch = '>' then some (⟨.GreaterThan, String.singleton l.ch⟩, read_char l)
  else if l.ch = ',' then some (⟨.Comma, String.singleton l.ch⟩, read_char l)
  else if l.ch = ';' then some (⟨.Semicolon, String.singleton l.ch⟩, read_char l)
  else if l.ch = '(' then some (⟨.LParen, String.singleton l.ch⟩, read_char l)
  else if l.ch = ')' then some (⟨.RParen, String.singleton l.ch⟩, read_char l)
  else if l.ch = '\x7b' then some (⟨.LBrace, String.singleton l.ch⟩, read_char l)
  else if l.ch = '\x7d' then some (⟨.RBrace, String.singleton l.ch⟩, read_char l)
  else if l.ch = '0' then some (⟨.EOF, ""⟩, read_char l)
  else if is_letter l.ch then
    match read_ident is_letter l "" with
    | none => none
    | some (v, ⟨inp, c⟩) => some (Token.fromIdent v, ⟨inp, c⟩)
  else if is_digit l.ch then
    match read_ident is_digit l "" with
    | none => none
    | some (v, ⟨inp, c⟩) => some (⟨.Int, v⟩, ⟨inp, c⟩)
  else some (⟨.Illegal, String.singleton l.ch⟩, read_char l)

/-- `Lexer::next_token`, arm for arm; `none` means the Rust code never
returns (the `read_ident` divergence). -/
def next_token (lx : Lexer) : Option (Token × Lexer) :=
  next_token_core (eat_whitespace lx)

/-! ## AST (src/ast.rs) -/

inductive Node where
  | Identifier (value : Token)
  | IntegerLiteral (value : Int)
  | Boolean (value : Bool)
  | FunctionLiteral (parameters : List Node) (body : Node)
  | PrefixExpression (operator : String) (right : Node)
  | InfixExpression (left : Node) (operator : String) (right : Node)
  | IfExpression (condition : Node) (consequence : Node) (alternative : Option Node)
  | CallExpression (function : Node) (arguments : List Node)
  | LetStatement (name : Node) (value : Option Node)
  | ReturnStatement (value : Option Node)
  | ExpressionStatement (expression : Option Node)
  | BlockStatement (statements : List Node)
deriving Repr

mutual

/-- Structural equality of AST nodes (Rust `#[derive(PartialEq)]` on `Node`). -/
def Node.beq : Node → Node → Bool
  | .Identifier a, .Identifier b => a == b
  | .IntegerLiteral a, .IntegerLiteral b => a == b
  | .Boolean a, .Boolean b => a == b
  | .FunctionLiteral p1 b1, .FunctionLiteral p2 b2 =>
    Node.beq_list p1 p2 && Node.beq b1 b2
  | .PrefixExpression o1 r1, .PrefixExpression o2 r2 =>
    o1 == o2 && Node.beq r1 r2
  | .InfixExpression l1 o1 r1, .InfixExpression l2 o2 r2 =>
    Node.beq l1 l2 && (o1 == o2 && Node.beq r1 r2)
  | .IfExpression c1 q1 a1, .IfExpression c2 q2 a2 =>
    Node.beq c1 c2 && (Node.beq q1 q2 && Node.beq_opt a1 a2)
  | .CallExpression f1 a1, .CallExpression f2 a2 =>
    Node.beq f1 f2 && Node.beq_list a1 a2
  | .LetStatement n1 v1, .LetStatement n2 v2 =>
    Node.beq n1 n2 && Node.beq_opt v1 v2
  | .ReturnStatement v1, .ReturnStatement v2 => Node.beq_opt v1 v2
  | .ExpressionStatement e1, .ExpressionStatement e2 => Node.beq_opt e1 e2
  | .BlockStatement s1, .BlockStatement s2 => Node.beq_list s1 s2
  | _, _ => false

def Node.beq_list : List Node → List Node → Bool
  | [], [] => true
  | x :: xs, y :: ys => Node.beq x y && Node.beq_list xs ys
  | _, _ => false

def Node.beq_opt : Option Node → Option Node → Bool
  | none, none => true
  | some x, some y => Node.beq x y
  | _, _ => false

end

instance : BEq Node := ⟨Node.beq⟩

mutual

/-- `Node::as_string` from src/ast.rs, arm for arm. -/
def Node.as_string : Node → String
  | .Identifier tok => tok.v
  | .IntegerLiteral v => toString v
  | .Boolean v => toString v
  | .FunctionLiteral params body =>
    "fn(" ++ String.intercalate ", " (Node.as_string_list params) ++ ") "
      ++ Node.as_string body
  | .PrefixExpression op right => "(" ++ op ++ Node.as_string right ++ ")"
  | .InfixExpression left op right =>
    "(" ++ Node.as_string left ++ " " ++ op ++ " " ++ Node.as_string right ++ ")"
  | .IfExpression c cons alt =>
    "if" ++ Node.as_string c ++ " " ++ Node.as_string cons
      ++ (match alt with
          | some a => "else " ++ Node.as_string a
          | none => "")
  | .CallExpression fn args =>
    Node.as_string fn ++ "(" ++ String.intercalate ", " (Node.as_string_list args) ++ ")"
  | .LetStatement name value =>
    "let " ++ Node.as_string name
      ++ (match value with
          | some v => " = " ++ Node.as_string v
          | none => "") ++ ";"
  | .ReturnStatement value =>
    "return"
      ++ (match value with
          | some v => " " ++ Node.as_string v
          | none => "") ++ ";"
  | .ExpressionStatement e =>
    (match e with
     | some v => Node.as_string v
     | none => "") ++ ";"
  | .BlockStatement stmts => String.join (Node.as_string_list stmts)

def Node.as_string_list : List Node → List String
  | [] => []
  | n :: rest => Node.as_string n :: Node.as_string_list rest

end

/-- `Program::as_string`: concatenation of the statements' strings. -/
def program_as_string (statements : List Node) : String :=
  String.join (Node.as_string_list statements)

/-! ## Parser (src/parser.rs) -/

inductive ParserError where
  | TokenUnrecognized
  | IdentExpected
  | AssignExpected
  | IntegerParsingFailed
  | BooleanParsingFailed
  | GroupExpressionParsingFailed
  | IncorrectIfStatement
  | IncorrectFunctionDeclaration
deriving DecidableEq, Repr

structure Parser where
  lexer : Lexer
  curr_token : Token
  peek_token : Token
deriving DecidableEq, Repr

/-- `Parser::next_token`: shift the lookahead and pull one token from the
lexer (`none` when the lexer diverges). -/
def Parser.advance (p : Parser) : Option Parser :=
  match p with
  | ⟨lx, _, ⟨pt, pv⟩⟩ =>
    match next_token lx with
    | none => none
    | some (⟨tt, tv⟩, ⟨inp, c⟩) => some ⟨⟨inp, c⟩, ⟨pt, pv⟩, ⟨tt, tv⟩⟩

/-- `Parser::new`: start from two default (`Illegal`) tokens and advance
twice. -/
def Parser.new (lx : Lexer) : Option Parser :=
  (Parser.advance ⟨lx, ⟨.Illegal, ""⟩, ⟨.Illegal, ""⟩⟩).bind Parser.advance

/-- `expect_peek`: advance when the lookahead has the wanted type; the
returned flag mirrors the Rust boolean. -/
def expect_peek (tt : TokenType) (p : Parser) : Option (Bool × Parser) :=
  if p.peek_token.t = tt then (Parser.advance p).map fun p => (true, p)
  else some (false, p)

/-- The `Precedence` enum, as its discriminant ordering:
Lowest 0, Equals 1, LessGreater 2, Sum 3, Product 4, Prefix 5, Call 6. -/
def token_precedence : TokenType → Nat
  | .Equal | .NotEqual => 1
  | .LessThan | .GreaterThan => 2
  | .Plus | .Minus => 3
  | .Slash | .Asterisk => 4
  | _ => 0

def lowest_precedence : Nat := 0

def unary_precedence : Nat := 5

def check_curr_precedence (p : Parser) : Nat := token_precedence p.curr_token.t

def check_peek_precedence (p : Parser) : Nat := token_precedence p.peek_token.t

/-- `should_keep_parsing`: the lookahead is a binary operator. -/
def should_keep_parsing (p : Parser) : Bool :=
  match p.peek_token.t with
  | .Plus | .Minus | .Slash | .Asterisk
  | .Equal | .NotEqual | .LessThan | .GreaterThan => true
  | _ => false

/-- `peek_until_semicolon`: advance until the current token is `;`.  The
loop has no end-of-input check, so it spins forever when no semicolon
remains (every fuel yields `none`). -/
def peek_until_semicolon : Nat → Parser → Option Parser
  | 0, _ => none
  | fuel + 1, p =>
    (Parser.advance p).bind fun p =>
      if p.curr_token.t = .Semicolon then some p
      else peek_until_semicolon fuel p

/-- `parse_let_statement`: note that the initializer is skipped up to the
next semicolon and the built node carries `value: None`. -/
def parse_let_statement (fuel : Nat) (p : Parser) :
    Option (Except ParserError Node × Parser) :=
  (expect_peek .Ident p).bind fun bp =>
    if !bp.1 then some (.error .IdentExpected, bp.2)
    else
      let p := bp.2
      let ident := Node.Identifier p.curr_token
      (expect_peek .Assign p).bind fun bp =>
        if !bp.1 then some (.error .AssignExpected, bp.2)
        else
          (peek_until_semicolon fuel bp.2).map fun p =>
            (.ok (Node.LetStatement ident none), p)

/-- `parse_return_statement`: skips to the semicolon and builds
`ReturnStatement { value: None }`. -/
def parse_return_statement (fuel : Nat) (p : Parser) :
    Option (Except ParserError Node × Parser) :=
  (peek_until_semicolon fuel p).map fun p =>
    (.ok (Node.ReturnStatement none), p)

/-- Decimal digit-string to number, as `str::parse` reads the lexer's
`Int` token values (which are always plain digit runs). -/
def digits_to_nat (acc : Nat) : List Char → Option Nat
  | [] => some acc
  | c :: rest =>
    if is_digit c then digits_to_nat (acc * 10 + (c.toNat - 48)) rest
    else none

/-- `parse_integer_literal`: `str::parse::<i64>` on the token text, with
the failure cases of that call — empty/non-digit text and values beyond
the `i64` range. -/
def parse_integer_literal (p : Parser) : Except ParserError Node :=
  match p.curr_token.v.data with
  | [] => .error .IntegerParsingFailed
  | ds =>
    match digits_to_nat 0 ds with
    | some n =>
      if n ≤ 9223372036854775807 then .ok (Node.IntegerLiteral (Int.ofNat n))
      else .error .IntegerParsingFailed
    | none => .error .IntegerParsingFailed

/-- `parse_boolean_expression`: compares the whole current token against
`Token::new(True, "true")`. -/
def parse_boolean_expression (p : Parser) : Node :=
  Node.Boolean (p.curr_token == Token.new .True "true")

mutual

def parse_statement (fuel : Nat) (p : Parser) :
    Option (Except ParserError Node × Parser) :=
  match fuel with
  | 0 => none
  | fuel + 1 =>
    match p.curr_token.t with
    | .Let => parse_let_statement fuel p
    | .Return => parse_return_statement fuel p
    | _ => parse_expression_statement fuel p

def parse_expression_statement (fuel : Nat) (p : Parser) :
    Option (Except ParserError Node × Parser) :=
  match fuel with
  | 0 => none
  | fuel + 1 =>
    (parse_expression fuel lowest_precedence p).bind fun rp =>
      match rp.1 with
      | .error e => some (.error e, rp.2)
      | .ok e =>
        let p := rp.2
        let stmt := Node.ExpressionStatement (some e)
        if p.peek_token.t = .Semicolon then
          (Parser.advance p).map fun p => (.ok stmt, p)
        else some (.ok stmt, p)

/-- The prefix-handler match at the head of `parse_expression`, named so
the round-trip development can speak about it. -/
def parse_expression_prefix_term (fuel : Nat) (p : Parser) :
    Option (Except ParserError Node × Parser) :=
  match fuel with
  | 0 => none
  | fuel + 1 =>
    match p.curr_token.t with
    | .Ident => some (.ok (Node.Identifier p.curr_token), p)
    | .Int => some (parse_integer_literal p, p)
    | .Minus | .Bang => parse_prefix_expression fuel p
    | .True | .False => some (.ok (parse_boolean_expression p), p)
    | .LParen => parse_grouped_expression fuel p
    | .If => parse_if_expression fuel p
    | .Function => parse_function_literal fuel p
    | _ => some (.error .TokenUnrecognized, p)

/-- `parse_expression`: Pratt parsing; prefix dispatch on the current
token, then the infix loop. -/
def parse_expression (fuel : Nat) (precedence : Nat) (p : Parser) :
    Option (Except ParserError Node × Parser) :=
  match fuel with
  | 0 => none
  | fuel + 1 =>
    (parse_expression_prefix_term fuel p).bind fun rp =>
      match rp.1 with
      | .error e => some (.error e, rp.2)
      | .ok left => parse_expression_loop fuel precedence left rp.2

/-- The `while` loop inside `parse_expression`. -/
def parse_expression_loop (fuel : Nat) (precedence : Nat) (left : Node)
    (p : Parser) : Option (Except ParserError Node × Parser) :=
  match fuel with
  | 0 => none
  | fuel + 1 =>
    if p.peek_token.t ≠ .Semicolon ∧ precedence < check_peek_precedence p then
      if !should_keep_parsing p then some (.ok left, p)
      else
        (Parser.advance p).bind fun p =>
          (parse_infix_expression fuel left p).bind fun rp =>
            match rp.1 with
            | .error e => some (.error e, rp.2)
            | .ok left => parse_expression_loop fuel precedence left rp.2
    else some (.ok left, p)

def parse_prefix_expression (fuel : Nat) (p : Parser) :
    Option (Except ParserError Node × Parser) :=
  match fuel with
  | 0 => none
  | fuel + 1 =>
    let tok := p.curr_token
    (Parser.advance p).bind fun p =>
      (parse_expression fuel unary_precedence p).bind fun rp =>
        match rp.1 with
        | .error e => some (.error e, rp.2)
        | .ok right => some (.ok (Node.PrefixExpression tok.v right), rp.2)

def parse_infix_expression (fuel : Nat) (left : Node) (p : Parser) :
    Option (Except ParserError Node × Parser) :=
  match fuel with
  | 0 => none
  | fuel + 1 =>
    let operator := p.curr_token
    let precedence := check_curr_precedence p
    (Parser.advance p).bind fun p =>
      (parse_expression fuel precedence p).bind fun rp =>
        match rp.1 with
        | .error e => some (.error e, rp.2)
        | .ok right =>
          some (.ok (Node.InfixExpression left operator.v right), rp.2)

def parse_grouped_expression (fuel : Nat) (p : Parser) :
    Option (Except ParserError Node × Parser) :=
  match fuel with
  | 0 => none
  | fuel + 1 =>
    (Parser.advance p).bind fun p =>
      (parse_expression fuel lowest_precedence p).bind fun rp =>
        match rp.1 with
        | .error e => some (.error e, rp.2)
        | .ok exp =>
          (expect_peek .RParen rp.2).bind fun bp =>
            if !bp.1 then some (.error .GroupExpressionParsingFailed, bp.2)
            else some (.ok exp, bp.2)

def parse_if_expression (fuel : Nat) (p : Parser) :
    Option (Except ParserError Node × Parser) :=
  match fuel with
  | 0 => none
  | fuel + 1 =>
    (Parser.advance p).bind fun p =>
      (parse_expression fuel lowest_precedence p).bind fun rp =>
        match rp.1 with
        | .error e => some (.error e, rp.2)
        | .ok condition =>
          (expect_peek .LBrace rp.2).bind fun bp =>
            if !bp.1 then some (.error .IncorrectIfStatement, bp.2)
            else
              (parse_block_statement fuel bp.2).bind fun rp =>
                match rp.1 with
                | .error e => some (.error e, rp.2)
                | .ok consequence =>
                  let p := rp.2
                  if p.peek_token.t = .Else then
                    (Parser.advance p).bind fun p =>
                      (expect_peek .LBrace p).bind fun bp =>
                        if !bp.1 then some (.error .IncorrectIfStatement, bp.2)
                        else
                          (parse_block_statement fuel bp.2).bind fun rp =>
                            match rp.1 with
                            | .error e => some (.error e, rp.2)
                            | .ok alternative =>
                              some (.ok (Node.IfExpression condition consequence
                                (some alternative)), rp.2)
                  else
                    some (.ok (Node.IfExpression condition consequence none), p)

def parse_block_statement (fuel : Nat) (p : Parser) :
    Option (Except ParserError Node × Parser) :=
  match fuel with
  | 0 => none
  | fuel + 1 => (Parser.advance p).bind fun p => parse_block_loop fuel [] p

/-- The `while` loop inside `parse_block_statement`; unlike
`peek_until_semicolon` it does stop at `EOF`. -/
def parse_block_loop (fuel : Nat) (acc : List Node) (p : Parser) :
    Option (Except ParserError Node × Parser) :=
  match fuel with
  | 0 => none
  | fuel + 1 =>
    if p.curr_token.t ≠ .RBrace ∧ p.curr_token.t ≠ .EOF then
      (parse_statement fuel p).bind fun rp =>
        match rp.1 with
        | .error e => some (.error e, rp.2)
        | .ok stmt =>
          (Parser.advance rp.2).bind fun p =>
            parse_block_loop fuel (acc ++ [stmt]) p
    else some (.ok (Node.BlockStatement acc), p)

def parse_function_literal (fuel : Nat) (p : Parser) :
    Option (Except ParserError Node × Parser) :=
  match fuel with
  | 0 => none
  | fuel + 1 =>
    (expect_peek .LParen p).bind fun bp =>
      if !bp.1 then some (.error .IncorrectFunctionDeclaration, bp.2)
      else
        (Parser.advance bp.2).bind fun p =>
          (parse_fn_parameters fuel [] p).bind fun lp =>
            (Parser.advance lp.2).bind fun p =>
              (parse_block_statement fuel p).bind fun rp =>
                match rp.1 with
                | .error e => some (.error e, rp.2)
                | .ok body =>
                  some (.ok (Node.FunctionLiteral lp.1 body), rp.2)

/-- The parameter-list `while` loop of `parse_function_literal`; it has no
`EOF` check, so it spins forever when the `)` is missing. -/
def parse_fn_parameters (fuel : Nat) (acc : List Node) (p : Parser) :
    Option (List Node × Parser) :=
  match fuel with
  | 0 => none
  | fuel + 1 =>
    if p.curr_token.t ≠ .RParen then
      (if p.curr_token.t = .Comma then Parser.advance p else some p).bind fun p =>
        let param := Node.Identifier p.curr_token
        (Parser.advance p).bind fun p =>
          parse_fn_parameters fuel (acc ++ [param]) p
    else some (acc, p)

end

/-- `parse_program`: the statement loop, collecting statements and errors. -/
def parse_program_loop (fuel : Nat) (stmts : List Node)
    (errs : List ParserError) (p : Parser) :
    Option (List Node × List ParserError) :=
  match fuel with
  | 0 => none
  | fuel + 1 =>
    if p.curr_token.t = .EOF then some (stmts, errs)
    else
      (parse_statement fuel p).bind fun rp =>
        let acc :=
          match rp.1 with
          | .ok s => (stmts ++ [s], errs)
          | .error e => (stmts, errs ++ [e])
        (Parser.advance rp.2).bind fun p =>
          parse_program_loop fuel acc.1 acc.2 p

/-- The whole front end: build the lexer (panics on empty input), prime the
parser and run `parse_program`. -/
def parse_from_string (fuel : Nat) (s : String) :
    Option (List Node × List ParserError) :=
  (Lexer.new s).bind fun lx =>
    (Parser.new lx).bind fun p =>
      parse_program_loop fuel [] [] p

/-! ## Runtime objects and environments (src/object.rs, src/eval/) -/

mutual

inductive Object where
  | Integer (value : Int)
  | Boolean (value : Bool)
  | ReturnValue (value : Object)
  | Error (value : String)
  | Function (parameters : List Node) (body : Node) (env : Environment)
  | Null

inductive Environment where
  | mk (storage : List (String × Object)) (outer : Option Environment)

end

mutual

/-- Structural equality of runtime objects (Rust `#[derive(PartialEq)]` on
`Object`); used by the `==`/`!=` fallback of `eval_infix_expression`. -/
def Object.beq : Object → Object → Bool
  | .Integer a, .Integer b => a == b
  | .Boolean a, .Boolean b => a == b
  | .ReturnValue a, .ReturnValue b => Object.beq a b
  | .Error a, .Error b => a == b
  | .Function p1 b1 e1, .Function p2 b2 e2 =>
    Node.beq_list p1 p2 && (Node.beq b1 b2 && Environment.beq e1 e2)
  | .Null, .Null => true
  | _, _ => false

def Environment.beq : Environment → Environment → Bool
  | .mk s1 o1, .mk s2 o2 => storage_beq s1 s2 && outer_beq o1 o2

def storage_beq : List (String × Object) → List (String × Object) → Bool
  | [], [] => true
  | (k1, v1) :: r1, (k2, v2) :: r2 =>
    k1 == k2 && (Object.beq v1 v2 && storage_beq r1 r2)
  | _, _ => false

def outer_beq : Option Environment → Option Environment → Bool
  | none, none => true
  | some a, some b => Environment.beq a b
  | _, _ => false

end

/-- `Object::name` from src/object.rs. -/
def Object.name : Object → String
  | .Integer _ => "INTEGER"
  | .Boolean _ => "BOOLEAN"
  | .ReturnValue _ => "RETURN_VALUE"
  | .Error _ => "ERROR"
  | .Function _ _ _ => "FUNCTION"
  | .Null => "NULL"

/-- Helper for stating claims: is the object an `Integer`? -/
def Object.is_integer : Object → Bool
  | .Integer _ => true
  | _ => false

/-- `Environment::new`. -/
def Environment.new : Environment := .mk [] none

/-- `Environment::new_enclosed`. -/
def Environment.new_enclosed (env : Environment) : Environment :=
  .mk [] (some env)

/-- HashMap insert-or-replace on the local storage. -/
def storage_insert (s : List (String × Object)) (k : String) (v : Object) :
    List (String × Object) :=
  match s with
  | [] => [(k, v)]
  | (k1, v1) :: rest =>
    if k1 = k then (k, v) :: rest else (k1, v1) :: storage_insert rest k v

/-- `environment.storage.insert(..)` as used by the evaluator. -/
def Environment.insert : Environment → String → Object → Environment
  | .mk storage outer, k, v => .mk (storage_insert storage k v) outer

def storage_get : List (String × Object) → String → Option Object
  | [], _ => none
  | (k1, v1) :: rest, k => if k1 = k then some v1 else storage_get rest k

/-- `Environment::get`: local storage first, then the outer chain. -/
def Environment.get : Environment → String → Option Object
  | .mk storage outer, k =>
    match storage_get storage k with
    | some v => some v
    | none =>
      match outer with
      | some o => Environment.get o k
      | none => none

/-! ## Evaluator (src/eval.rs) -/

def NULL : Object := .Null

def TRUE : Object := .Boolean true

def FALSE : Object := .Boolean false

def is_error : Object → Bool
  | .Error _ => true
  | _ => false

def is_truthy : Object → Bool
  | .Null => false
  | .Boolean b => b
  | _ => true

def eval_bang_operator_expression : Object → Object
  | .Boolean true => FALSE
  | .Boolean false => TRUE
  | .Null => TRUE
  | _ => FALSE

def eval_minus_operator_expression (right : Object) : Object :=
  match right with
  | .Integer v => .Integer (-v)
  | _ => .Error ("unknown operator: -" ++ right.name)

def eval_prefix_expression (operator : String) (right : Object) : Object :=
  if operator = "!" then eval_bang_operator_expression right
  else if operator = "-" then eval_minus_operator_expression right
  else .Error ("unknown operator: " ++ operator ++ right.name)

/-- `eval_integer_infix_expression`; `left / right` on `i64` panics when
`right == 0`, hence the `none`. -/
def eval_integer_infix_expression (operator : String) (left right : Int) :
    Option Object :=
  if operator = "+" then some (.Integer (left + right))
  else if operator = "-" then some (.Integer (left - right))
  else if operator = "*" then some (.Integer (left * right))
  else if operator = "/" then
    if right = 0 then none else some (.Integer (Int.tdiv left right))
  else if operator = "<" then some (.Boolean (left < right))
  else if operator = ">" then some (.Boolean (right < left))
  else if operator = "==" then some (.Boolean (left == right))
  else if operator = "!=" then some (.Boolean (left != right))
  else some (.Error ("unknown operator: INTEGER " ++ operator ++ " INTEGER"))

/-- `eval_infix_expression`: the integer/integer arm first, then the
`==`/`!=` structural fallback, then the type-mismatch/unknown-operator
errors. -/
def eval_infix_expression (operator : String) (left right : Object) :
    Option Object :=
  match left, right with
  | .Integer v1, .Integer v2 => eval_integer_infix_expression operator v1 v2
  | _, _ =>
    if operator = "==" then some (.Boolean (Object.beq left right))
    else if operator = "!=" then some (.Boolean (!Object.beq left right))
    else if left.name ≠ right.name then
      some (.Error ("type mismatch: " ++ left.name ++ " " ++ operator
        ++ " " ++ right.name))
    else
      some (.Error ("unknown operator: " ++ left.name ++ " " ++ operator
        ++ " " ++ right.name))

def eval_identifier (name : String) (env : Environment) : Object :=
  match env.get name with
  | some v => v
  | none => .Error ("identifier not found: " ++ name)

def unwrap_return_value : Object → Object
  | .ReturnValue v => v
  | o => o

/-- `create_function_env`: a new scope enclosing the captured environment,
with parameters zipped positionally to the arguments (silently dropping
extras on either side). -/
def create_function_env (parameters : List Node) (args : List Object)
    (env : Environment) : Environment :=
  (parameters.zip args).foldl
    (fun e pa => e.insert pa.1.as_string pa.2)
    (Environment.new_enclosed env)

mutual

/-- `eval` from src/eval.rs, arm for arm (the `Node::Program` arm lives in
`eval_program` below).  The environment is threaded explicitly in place of
the Rust `&mut Environment`; `none` means the Rust evaluation panics or
never returns. -/
def eval (fuel : Nat) (node : Node) (env : Environment) :
    Option (Object × Environment) :=
  match fuel with
  | 0 => none
  | fuel + 1 =>
    match node with
    | .IntegerLiteral v => some (.Integer v, env)
    | .Boolean v => some (if v then TRUE else FALSE, env)
    | .ExpressionStatement e =>
      match e with
      | some e => eval fuel e env
      | none => some (NULL, env)
    | .PrefixExpression operator right =>
      (eval fuel right env).bind fun re =>
        if is_error re.1 then some re
        else some (eval_prefix_expression operator re.1, re.2)
    | .InfixExpression left operator right =>
      (eval fuel right env).bind fun re =>
        if is_error re.1 then some re
        else
          (eval fuel left re.2).bind fun le =>
            if is_error le.1 then some le
            else
              (eval_infix_expression operator le.1 re.1).map fun o => (o, le.2)
    | .BlockStatement statements => eval_block_statement fuel statements env
    | .IfExpression condition consequence alternative =>
      eval_if_expression fuel condition consequence alternative env
    | .ReturnStatement value =>
      match value with
      | some v =>
        (eval fuel v env).bind fun e1 =>
          if is_error e1.1 then some e1
          else
            (eval fuel v e1.2).bind fun e2 =>
              some (.ReturnValue e2.1, e2.2)
      | none => some (.ReturnValue NULL, env)
    | .LetStatement name value =>
      match value with
      | some v =>
        (eval fuel v env).bind fun ve =>
          if is_error ve.1 then some ve
          else some (NULL, ve.2.insert name.as_string ve.1)
      | none => some (NULL, env)
    | .Identifier tok => some (eval_identifier tok.v env, env)
    | .FunctionLiteral parameters body =>
      some (.Function parameters body env, env)
    | .CallExpression function arguments =>
      (eval fuel function env).bind fun fe =>
        if is_error fe.1 then some fe
        else
          (eval_expressions fuel arguments fe.2).bind fun ae =>
            match ae.1 with
            | a :: _ =>
              if is_error a then some (a, ae.2)
              else (apply_function fuel fe.1 ae.1).map fun o => (o, ae.2)
            | [] => (apply_function fuel fe.1 ae.1).map fun o => (o, ae.2)

/-- `eval_block_statement`: stop at the first `ReturnValue` or `Error`,
passing it up unconsumed. -/
def eval_block_statement (fuel : Nat) (statements : List Node)
    (env : Environment) : Option (Object × Environment) :=
  match fuel with
  | 0 => none
  | fuel + 1 =>
    match statements with
    | [] => some (NULL, env)
    | st :: rest =>
      (eval fuel st env).bind fun se =>
        match se.1 with
        | .ReturnValue v => some (.ReturnValue v, se.2)
        | .Error e => some (.Error e, se.2)
        | _ =>
          match rest with
          | [] => some se
          | _ :: _ => eval_block_statement fuel rest se.2

def eval_if_expression (fuel : Nat) (condition consequence : Node)
    (alternative : Option Node) (env : Environment) :
    Option (Object × Environment) :=
  match fuel with
  | 0 => none
  | fuel + 1 =>
    (eval fuel condition env).bind fun ce =>
      if is_error ce.1 then some ce
      else if is_truthy ce.1 then eval fuel consequence ce.2
      else
        match alternative with
        | some a => eval fuel a ce.2
        | none => some (NULL, ce.2)

/-- `eval_expressions`: left-to-right, returning the singleton `[error]` at
the first error. -/
def eval_expressions (fuel : Nat) (expressions : List Node)
    (env : Environment) : Option (List Object × Environment) :=
  match fuel with
  | 0 => none
  | fuel + 1 =>
    match expressions with
    | [] => some ([], env)
    | e :: rest =>
      (eval fuel e env).bind fun ee =>
        if is_error ee.1 then some ([ee.1], ee.2)
        else
          (eval_expressions fuel rest ee.2).bind fun re =>
            some (ee.1 :: re.1, re.2)

/-- `apply_function`: evaluate the body in a fresh scope enclosing the
captured environment and unwrap a `ReturnValue`; the extended environment
is dropped afterwards. -/
def apply_function (fuel : Nat) (function : Object) (args : List Object) :
    Option Object :=
  match fuel with
  | 0 => none
  | fuel + 1 =>
    match function with
    | .Function parameters body env =>
      (eval fuel body (create_function_env parameters args env)).map fun oe =>
        unwrap_return_value oe.1
    | _ => some (.Error ("not a function: " ++ function.name))

end

/-- `eval_program`: like a block, but a trailing `ReturnValue` is unwrapped
and an `Error` ends the loop. -/
def eval_program (fuel : Nat) (statements : List Node) (env : Environment) :
    Option (Object × Environment) :=
  match statements with
  | [] => some (NULL, env)
  | st :: rest =>
    (eval fuel st env).bind fun se =>
      match se.1 with
      | .ReturnValue v => some (v, se.2)
      | .Error e => some (.Error e, se.2)
      | _ =>
        match rest with
        | [] => some se
        | _ :: _ => eval_program fuel rest se.2

/-- The full pipeline on a fresh environment, as in the evaluator's tests:
lex, parse, evaluate the statement list, and report the final object. -/
def interpret (parse_fuel eval_fuel : Nat) (src : String) : Option Object :=
  (parse_from_string parse_fuel src).bind fun pr =>
    (eval_program eval_fuel pr.1 Environment.new).map fun oe => oe.1

/-! ## Claim-support definitions -/

/-- Does a parsed program survive printing and re-parsing unchanged? -/
def round_trips (s : String) : Bool :=
  match parse_from_string 50 s with
  | some (stmts, errs) =>
    errs.isEmpty
      && (parse_from_string 50 (program_as_string stmts) == some (stmts, []))
  | none => false

/-- A program (at AST level, since the parser of this snapshot drops `let`
initializers) that re-binds `x` after a closure over `x` was created and
then calls the closure. -/
def capture_test_program : List Node :=
  [ Node.LetStatement (.Identifier ⟨.Ident, "x"⟩) (some (.IntegerLiteral 1)),
    Node.LetStatement (.Identifier ⟨.Ident, "f"⟩)
      (some (.FunctionLiteral []
        (.BlockStatement
          [.ExpressionStatement (some (.Identifier ⟨.Ident, "x"⟩))]))),
    Node.LetStatement (.Identifier ⟨.Ident, "x"⟩) (some (.IntegerLiteral 2)),
    Node.ExpressionStatement
      (some (.CallExpression (.Identifier ⟨.Ident, "f"⟩) [])) ]

/-- The parse of `"10 / (5 - 5);"`: an integer division whose divisor
evaluates to 0. -/
def div_zero_statements : List Node :=
  [ Node.ExpressionStatement
      (some (.InfixExpression (.IntegerLiteral 10) "/"
        (.InfixExpression (.IntegerLiteral 5) "-" (.IntegerLiteral 5)))) ]

/-! ## The printable expression fragment and its token sequences -/

/-- The infix operator tokens, keyed by their spelling. -/
def infix_op_token (op : String) : Token :=
  if op = "+" then ⟨.Plus, "+"⟩
  else if op = "-" then ⟨.Minus, "-"⟩
  else if op = "*" then ⟨.Asterisk, "*"⟩
  else if op = "/" then ⟨.Slash, "/"⟩
  else if op = "<" then ⟨.LessThan, "<"⟩
  else if op = ">" then ⟨.GreaterThan, ">"⟩
  else if op = "==" then ⟨.Equal, "=="⟩
  else ⟨.NotEqual, "!="⟩

/-- The prefix operator tokens. -/
def prefix_op_token (op : String) : Token :=
  if op = "-" then ⟨.Minus, "-"⟩ else ⟨.Bang, "!"⟩

/-- The token sequence of a fragment expression's `as_string` rendering. -/
def tokens_of : Node → List Token
  | .Identifier tok => [tok]
  | .IntegerLiteral v => [⟨.Int, toString v⟩]
  | .Boolean true => [⟨.True, "true"⟩]
  | .Boolean false => [⟨.False, "false"⟩]
  | .PrefixExpression op r =>
    ⟨.LParen, "("⟩ :: prefix_op_token op :: (tokens_of r ++ [⟨.RParen, ")"⟩])
  | .InfixExpression l op r =>
    ⟨.LParen, "("⟩ ::
      (tokens_of l ++ infix_op_token op :: (tokens_of r ++ [⟨.RParen, ")"⟩]))
  | _ => []

/-- The tokens strictly inside the outer parentheses of a compound
fragment expression (the whole sequence for an atom). -/
def inner_tokens : Node → List Token
  | .PrefixExpression op r => prefix_op_token op :: tokens_of r
  | .InfixExpression l op r => tokens_of l ++ infix_op_token op :: tokens_of r
  | e => tokens_of e

/-- The final token of a fragment expression's rendering. -/
def last_token : Node → Token
  | .Identifier tok => tok
  | .IntegerLiteral v => ⟨.Int, toString v⟩
  | .Boolean true => ⟨.True, "true"⟩
  | .Boolean false => ⟨.False, "false"⟩
  | _ => ⟨.RParen, ")"⟩

/-- Size measure for fuel bounds in the round-trip development. -/
def esize : Node → Nat
  | .PrefixExpression _ r => esize r + 1
  | .InfixExpression l _ r => esize l + esize r + 1
  | _ => 1

/-- The expression fragment whose renderings re-parse exactly: identifiers
as the lexer produces them (letter-named, not keyword-spelled), integer
literals the parser can produce (positive, within `i64`), booleans, and
the prefix/infix operators. -/
inductive ExprOk : Node → Prop where
  | ident (name : String) (h1 : name.data ≠ [])
      (h2 : ∀ c ∈ name.data, is_letter c = true)
      (h3 : Token.fromIdent name = ⟨.Ident, name⟩) :
      ExprOk (.Identifier ⟨.Ident, name⟩)
  | int (v : Int) (h1 : 1 ≤ v) (h2 : v ≤ 9223372036854775807) :
      ExprOk (.IntegerLiteral v)
  | bool (b : Bool) : ExprOk (.Boolean b)
  | pre (op : String) (r : Node) (hop : op = "-" ∨ op = "!") (hr : ExprOk r) :
      ExprOk (.PrefixExpression op r)
  | inf (l : Node) (op : String) (r : Node)
      (hop : op = "+" ∨ op = "-" ∨ op = "*" ∨ op = "/" ∨ op = "<" ∨
        op = ">" ∨ op = "==" ∨ op = "!=")
      (hl : ExprOk l) (hr : ExprOk r) :
      ExprOk (.InfixExpression l op r)

/-- A stop character at which every fragment token ends: the rendered
fragment always follows a token with a space, `)` or `;`. -/
def is_delim (c : Char) : Prop := c = ' ' ∨ c = ')' ∨ c = ';'

/-- The lexer at `lx` yields exactly the tokens `ts` and is then in state
`lxf`. -/
inductive Produces : Lexer → List Token → Lexer → Prop where
  | nil (lx : Lexer) : Produces lx [] lx
  | cons {lx lxm lxf : Lexer} {t : Token} {ts : List Token} :
      next_token lx = some (t, lxm) → Produces lxm ts lxf →
      Produces lx (t :: ts) lxf

/-- The parser's upcoming tokens are `ts` (current, lookahead, then the
lexer's production), leaving the lexer in state `lxf`. -/
def streams (p : Parser) (ts : List Token) (lxf : Lexer) : Prop :=
  ∃ t0 t1 rest, ts = t0 :: t1 :: rest ∧ p.curr_token = t0 ∧
    p.peek_token = t1 ∧ Produces p.lexer rest lxf

/-- The token the parser's current slot holds right after parsing the
material between an expression's outer parentheses. -/
def inner_last : Node → Token
  | .PrefixExpression _ r => last_token r
  | .InfixExpression _ _ r => last_token r
  | e => last_token e

/-- What `parse_expression_prefix_term` does on a printed fragment
expression followed by at least one more token. -/
def StmtL0 (e : Node) : Prop :=
  ∀ (p : Parser) (u : Token) (us : List Token) (lxf : Lexer) (fuel : Nat),
    8 * esize e + 4 ≤ fuel →
    streams p (tokens_of e ++ u :: us) lxf →
    ∃ p', parse_expression_prefix_term fuel p = some (.ok e, p') ∧
      streams p' (last_token e :: u :: us) lxf

/-- What `parse_expression` does at any precedence when the boundary
token stops the infix loop. -/
def StmtL1 (e : Node) : Prop :=
  ∀ (q : Nat) (p : Parser) (u : Token) (us : List Token) (lxf : Lexer)
    (fuel : Nat),
    8 * esize e + 5 ≤ fuel →
    (u.t = .Semicolon ∨ token_precedence u.t ≤ q) →
    streams p (tokens_of e ++ u :: us) lxf →
    ∃ p', parse_expression fuel q p = some (.ok e, p') ∧
      streams p' (last_token e :: u :: us) lxf

/-- What `parse_expression` at lowest precedence does on the material
between an expression's outer parentheses (as called by
`parse_grouped_expression`). -/
def StmtL2 (e : Node) : Prop :=
  ∀ (p : Parser) (u : Token) (us : List Token) (lxf : Lexer) (fuel : Nat),
    8 * esize e + 2 ≤ fuel →
    streams p (inner_tokens e ++ ⟨.RParen, ")"⟩ :: u :: us) lxf →
    ∃ p', parse_expression fuel 0 p = some (.ok e, p') ∧
      streams p' (inner_last e :: ⟨.RParen, ")"⟩ :: u :: us) lxf

/-- The parse of `"if (a) \x7b b; \x7d;"`. -/
def if_round_trip_statements : List Node :=
  [ Node.ExpressionStatement
      (some (.IfExpression (.Identifier ⟨.Ident, "a"⟩)
        (.BlockStatement
          [.ExpressionStatement (some (.Identifier ⟨.Ident, "b"⟩))])
        none)) ]

/-- The parse of `"fn(a) \x7b b; \x7d;"`. -/
def fn_round_trip_statements : List Node :=
  [ Node.ExpressionStatement
      (some (.FunctionLiteral [.Identifier ⟨.Ident, "a"⟩]
        (.BlockStatement
          [.ExpressionStatement (some (.Identifier ⟨.Ident, "b"⟩))]))) ]

/-! ## Theorems for the claims -/

/-! ### Decimal rendering of the integer literals -/

theorem digits_to_nat_append (a : Nat) (xs ys : List Char) :
    digits_to_nat a (xs ++ ys)
      = (digits_to_nat a xs).bind fun m => digits_to_nat m ys := by
  induction xs generalizing a with
  | nil => simp [digits_to_nat]
  | cons c rest ih =>
    simp only [List.cons_append, digits_to_nat]
    by_cases h : is_digit c
    · simp [h, ih]
    · simp [h]

theorem digitChar_digit (k : Nat) (hk : k < 10) :
    is_digit (Nat.digitChar k) = true ∧ (Nat.digitChar k).toNat = k + 48 := by
  interval_cases k <;> exact ⟨by decide, by decide⟩

theorem digitChar_ne_zero (k : Nat) (h1 : 1 ≤ k) (hk : k < 10) :
    Nat.digitChar k ≠ '0' := by
  interval_cases k <;> decide

theorem toDigitsCore_fuel (n : Nat) :
    ∀ f1 f2 ds, n < f1 → n < f2 →
      Nat.toDigitsCore 10 f1 n ds = Nat.toDigitsCore 10 f2 n ds := by
  induction n using Nat.strong_induction_on with
  | _ n ih =>
    intro f1 f2 ds h1 h2
    match f1, f2 with
    | a + 1, b + 1 =>
      simp only [Nat.toDigitsCore]
      by_cases h : n / 10 = 0
      · simp [h]
      · have hn : 0 < n := by
          rcases Nat.eq_zero_or_pos n with hz | hp
          · subst hz; simp at h
          · exact hp
        have hdiv : n / 10 < n := Nat.div_lt_self hn (by omega)
        simp only [h, if_false]
        exact ih (n / 10) hdiv a b _ (by omega) (by omega)

theorem toDigitsCore_acc (n : Nat) :
    ∀ f ds, n < f →
      Nat.toDigitsCore 10 f n ds = Nat.toDigitsCore 10 f n [] ++ ds := by
  induction n using Nat.strong_induction_on with
  | _ n ih =>
    intro f ds hf
    match f with
    | a + 1 =>
      simp only [Nat.toDigitsCore]
      by_cases h : n / 10 = 0
      · simp [h]
      · have hn : 0 < n := by
          rcases Nat.eq_zero_or_pos n with hz | hp
          · subst hz; simp at h
          · exact hp
        have hdiv : n / 10 < n := Nat.div_lt_self hn (by omega)
        simp only [h, if_false]
        rw [ih (n / 10) hdiv a (Nat.digitChar (n % 10) :: ds) (by omega),
          ih (n / 10) hdiv a [Nat.digitChar (n % 10)] (by omega)]
        simp

theorem toDigits_spec (n : Nat) (hn : 1 ≤ n) :
    ∃ c cs, Nat.toDigits 10 n = c :: cs ∧
      (∀ x ∈ c :: cs, is_digit x = true) ∧ c ≠ '0' ∧
      digits_to_nat 0 (c :: cs) = some n := by
  induction n using Nat.strong_induction_on with
  | _ n ih =>
    by_cases h : n / 10 = 0
    · have hlt : n < 10 := by omega
      have hmod : n % 10 = n := Nat.mod_eq_of_lt hlt
      refine ⟨Nat.digitChar n, [], ?_, ?_, ?_, ?_⟩
      · simp [Nat.toDigits, Nat.toDigitsCore, h, hmod]
      · intro x hx
        simp at hx
        subst hx
        exact (digitChar_digit n hlt).1
      · exact digitChar_ne_zero n hn hlt
      · simp [digits_to_nat, (digitChar_digit n hlt).1,
          (digitChar_digit n hlt).2]
    · have h10 : 10 ≤ n := by omega
      have hdiv : n / 10 < n := Nat.div_lt_self (by omega) (by omega)
      obtain ⟨c, cs, hcons, hdig, hne, hval⟩ :=
        ih (n / 10) hdiv (by omega)
      have hmodlt : n % 10 < 10 := Nat.mod_lt n (by omega)
      have step : Nat.toDigits 10 n
          = Nat.toDigits 10 (n / 10) ++ [Nat.digitChar (n % 10)] := by
        show Nat.toDigitsCore 10 (n + 1) n [] = _
        simp only [Nat.toDigitsCore, h, if_false]
        rw [toDigitsCore_fuel (n / 10) n (n / 10 + 1) _ (by omega) (by omega)]
        rw [toDigitsCore_acc (n / 10) (n / 10 + 1) _ (by omega)]
        rfl
      refine ⟨c, cs ++ [Nat.digitChar (n % 10)], ?_, ?_, hne, ?_⟩
      · rw [step, hcons]; simp
      · intro x hx
        rcases List.mem_cons.mp hx with hx | hx
        · exact hdig x (by simp [hx])
        · rcases List.mem_append.mp hx with hx | hx
          · exact hdig x (by simp [hx])
          · simp at hx
            subst hx
            exact (digitChar_digit _ hmodlt).1
      · rw [← List.cons_append, digits_to_nat_append, hval]
        simp [digits_to_nat, (digitChar_digit _ hmodlt).1,
          (digitChar_digit _ hmodlt).2]
        omega

theorem int_toString_digits (v : Int) (h1 : 1 ≤ v) :
    ∃ c cs, (toString v).data = c :: cs ∧
      (∀ x ∈ c :: cs, is_digit x = true) ∧ c ≠ '0' ∧
      digits_to_nat 0 (c :: cs) = some v.toNat := by
  obtain ⟨n, rfl⟩ : ∃ n : Nat, v = Int.ofNat n :=
    ⟨v.toNat, (Int.toNat_of_nonneg (by omega)).symm⟩
  have hn : 1 ≤ n := by
    rw [Int.ofNat_eq_coe] at h1
    exact_mod_cast h1
  obtain ⟨c, cs, hcons, hdig, hne, hval⟩ := toDigits_spec n hn
  refine ⟨c, cs, ?_, hdig, hne, ?_⟩
  · show (Nat.repr n).data = c :: cs
    rw [Nat.repr, hcons]
    rfl
  · rw [hval]
    simp


/-! ### Character classes and single-token lexing -/

theorem char_le_toNat {a b : Char} : a ≤ b ↔ a.toNat ≤ b.toNat := Iff.rfl

theorem char_eq_toNat {a b : Char} : a = b ↔ a.toNat = b.toNat :=
  ⟨fun h => h ▸ rfl, fun h => Char.ext (UInt32.ext h)⟩

theorem char_ne_of_toNat_ne {c : Char} (d : Char) {m : Nat}
    (hd : d.toNat = m) (h : c.toNat ≠ m) : ¬ (c = d) :=
  fun he => h (by rw [he, hd])

theorem letter_toNat {c : Char} (h : is_letter c = true) :
    (97 ≤ c.toNat ∧ c.toNat ≤ 122) ∨ (65 ≤ c.toNat ∧ c.toNat ≤ 90) ∨
      c.toNat = 95 := by
  simp only [is_letter, Bool.or_eq_true, Bool.and_eq_true, decide_eq_true_eq,
    char_le_toNat, char_eq_toNat,
    show ('a' : Char).toNat = 97 from rfl, show ('z' : Char).toNat = 122 from rfl,
    show ('A' : Char).toNat = 65 from rfl, show ('Z' : Char).toNat = 90 from rfl,
    show ('_' : Char).toNat = 95 from rfl] at h
  omega

theorem digit_toNat {c : Char} (h : is_digit c = true) :
    48 ≤ c.toNat ∧ c.toNat ≤ 57 := by
  simp only [is_digit, Bool.and_eq_true, decide_eq_true_eq, char_le_toNat,
    show ('0' : Char).toNat = 48 from rfl,
    show ('9' : Char).toNat = 57 from rfl] at h
  exact h

theorem not_ws_of_toNat {c : Char}
    (h : c.toNat ≠ 32 ∧ c.toNat ≠ 9 ∧ c.toNat ≠ 10 ∧ c.toNat ≠ 13) :
    is_whitespace c = false := by
  simp only [is_whitespace, Bool.or_eq_false_iff, decide_eq_false_iff_not,
    char_eq_toNat, show (' ' : Char).toNat = 32 from rfl,
    show ('\t' : Char).toNat = 9 from rfl,
    show ('\n' : Char).toNat = 10 from rfl,
    show ('\r' : Char).toNat = 13 from rfl]
  omega

theorem letter_not_ws {c : Char} (h : is_letter c = true) :
    is_whitespace c = false :=
  not_ws_of_toNat (by have := letter_toNat h; omega)

theorem digit_not_ws {c : Char} (h : is_digit c = true) :
    is_whitespace c = false :=
  not_ws_of_toNat (by have := digit_toNat h; omega)

theorem digit_not_letter {c : Char} (h : is_digit c = true) :
    is_letter c = false := by
  have hb := digit_toNat h
  simp only [is_letter, Bool.or_eq_false_iff, Bool.and_eq_false_iff,
    decide_eq_false_iff_not, char_le_toNat, char_eq_toNat,
    show ('a' : Char).toNat = 97 from rfl, show ('z' : Char).toNat = 122 from rfl,
    show ('A' : Char).toNat = 65 from rfl, show ('Z' : Char).toNat = 90 from rfl,
    show ('_' : Char).toNat = 95 from rfl]
  omega

theorem eat_whitespace_nonws (input : List Char) (ch : Char)
    (h : is_whitespace ch = false) :
    eat_whitespace ⟨input, ch⟩ = ⟨input, ch⟩ := by
  cases input <;> simp [eat_whitespace, eat_whitespace_go, h]

theorem next_token_nonws (input : List Char) (ch : Char)
    (h : is_whitespace ch = false) :
    next_token ⟨input, ch⟩ = next_token_core ⟨input, ch⟩ := by
  rw [next_token, eat_whitespace_nonws input ch h]

theorem next_token_core_letter (input : List Char) (ch : Char)
    (h : is_letter ch = true) :
    next_token_core ⟨input, ch⟩
      = match read_ident_go is_letter input ch "" with
        | none => none
        | some (v, ⟨inp, c⟩) => some (Token.fromIdent v, ⟨inp, c⟩) := by
  have hb := letter_toNat h
  rw [next_token_core]
  simp only [show (⟨input, ch⟩ : Lexer).ch = ch from rfl]
  rw [if_neg (char_ne_of_toNat_ne '='
      (show ('=' : Char).toNat = 61 from rfl) (by omega))]
  rw [if_neg (char_ne_of_toNat_ne '+'
      (show ('+' : Char).toNat = 43 from rfl) (by omega))]
  rw [if_neg (char_ne_of_toNat_ne '-'
      (show ('-' : Char).toNat = 45 from rfl) (by omega))]
  rw [if_neg (char_ne_of_toNat_ne '!'
      (show ('!' : Char).toNat = 33 from rfl) (by omega))]
  rw [if_neg (char_ne_of_toNat_ne '*'
      (show ('*' : Char).toNat = 42 from rfl) (by omega))]
  rw [if_neg (char_ne_of_toNat_ne '/'
      (show ('/' : Char).toNat = 47 from rfl) (by omega))]
  rw [if_neg (char_ne_of_toNat_ne '<'
      (show ('<' : Char).toNat = 60 from rfl) (by omega))]
  rw [if_neg (char_ne_of_toNat_ne '>'
      (show ('>' : Char).toNat = 62 from rfl) (by omega))]
  rw [if_neg (char_ne_of_toNat_ne ','
      (show (',' : Char).toNat = 44 from rfl) (by omega))]
  rw [if_neg (char_ne_of_toNat_ne ';'
      (show (';' : Char).toNat = 59 from rfl) (by omega))]
  rw [if_neg (char_ne_of_toNat_ne '('
      (show ('(' : Char).toNat = 40 from rfl) (by omega))]
  rw [if_neg (char_ne_of_toNat_ne ')'
      (show (')' : Char).toNat = 41 from rfl) (by omega))]
  rw [if_neg (char_ne_of_toNat_ne '\x7b'
      (show ('\x7b' : Char).toNat = 123 from rfl) (by omega))]
  rw [if_neg (char_ne_of_toNat_ne '\x7d'
      (show ('\x7d' : Char).toNat = 125 from rfl) (by omega))]
  rw [if_neg (char_ne_of_toNat_ne '0'
      (show ('0' : Char).toNat = 48 from rfl) (by omega))]
  rw [if_pos h]
  rfl

theorem next_token_core_digit (input : List Char) (ch : Char)
    (h : is_digit ch = true) (h0 : ch ≠ '0') :
    next_token_core ⟨input, ch⟩
      = match read_ident_go is_digit input ch "" with
        | none => none
        | some (v, ⟨inp, c⟩) => some (⟨.Int, v⟩, ⟨inp, c⟩) := by
  have hb := digit_toNat h
  have h48 : ch.toNat ≠ 48 := fun he => h0 (char_eq_toNat.mpr he)
  rw [next_token_core]
  simp only [show (⟨input, ch⟩ : Lexer).ch = ch from rfl]
  rw [if_neg (char_ne_of_toNat_ne '='
      (show ('=' : Char).toNat = 61 from rfl) (by omega))]
  rw [if_neg (char_ne_of_toNat_ne '+'
      (show ('+' : Char).toNat = 43 from rfl) (by omega))]
  rw [if_neg (char_ne_of_toNat_ne '-'
      (show ('-' : Char).toNat = 45 from rfl) (by omega))]
  rw [if_neg (char_ne_of_toNat_ne '!'
      (show ('!' : Char).toNat = 33 from rfl) (by omega))]
  rw [if_neg (char_ne_of_toNat_ne '*'
      (show ('*' : Char).toNat = 42 from rfl) (by omega))]
  rw [if_neg (char_ne_of_toNat_ne '/'
      (show ('/' : Char).toNat = 47 from rfl) (by omega))]
  rw [if_neg (char_ne_of_toNat_ne '<'
      (show ('<' : Char).toNat = 60 from rfl) (by omega))]
  rw [if_neg (char_ne_of_toNat_ne '>'
      (show ('>' : Char).toNat = 62 from rfl) (by omega))]
  rw [if_neg (char_ne_of_toNat_ne ','
      (show (',' : Char).toNat = 44 from rfl) (by omega))]
  rw [if_neg (char_ne_of_toNat_ne ';'
      (show (';' : Char).toNat = 59 from rfl) (by omega))]
  rw [if_neg (char_ne_of_toNat_ne '('
      (show ('(' : Char).toNat = 40 from rfl) (by omega))]
  rw [if_neg (char_ne_of_toNat_ne ')'
      (show (')' : Char).toNat = 41 from rfl) (by omega))]
  rw [if_neg (char_ne_of_toNat_ne '\x7b'
      (show ('\x7b' : Char).toNat = 123 from rfl) (by omega))]
  rw [if_neg (char_ne_of_toNat_ne '\x7d'
      (show ('\x7d' : Char).toNat = 125 from rfl) (by omega))]
  rw [if_neg (char_ne_of_toNat_ne '0'
      (show ('0' : Char).toNat = 48 from rfl) (by omega))]
  rw [if_neg (by rw [digit_not_letter h]; exact Bool.false_ne_true)]
  rw [if_pos h]
  rfl

/-! ### Reading whole tokens -/

theorem read_ident_go_stop (cond : Char → Bool) (input : List Char)
    (ch : Char) (acc : String) (h : cond ch = false) :
    read_ident_go cond input ch acc = some (acc, ⟨input, ch⟩) := by
  cases input <;> simp [read_ident_go, h]

theorem read_ident_go_all (cond : Char → Bool) (cs : List Char) :
    ∀ (ch : Char) (acc : String) (c : Char) (k : List Char),
      cond ch = true → (∀ x ∈ cs, cond x = true) → cond c = false →
      read_ident_go cond (cs ++ c :: k) ch acc
        = some (⟨acc.data ++ ch :: cs⟩, ⟨k, c⟩) := by
  induction cs with
  | nil =>
    intro ch acc c k hch _ hc
    simp only [List.nil_append, read_ident_go, hch, if_true]
    rw [read_ident_go_stop cond k c (acc.push ch) hc]
    simp [String.push]
  | cons x xs ih =>
    intro ch acc c k hch hall hc
    simp only [List.cons_append, read_ident_go, List.append_eq, hch, if_true]
    rw [ih x (acc.push ch) c k (hall x (by simp)) (fun y hy => hall y (by simp [hy])) hc]
    simp [String.push]

theorem next_token_space (c : Char) (rest : List Char) :
    next_token ⟨c :: rest, ' '⟩ = next_token ⟨rest, c⟩ := rfl

theorem next_token_ident (name : String) (n0 : Char) (ns : List Char)
    (hdata : name.data = n0 :: ns)
    (hlet : ∀ x ∈ name.data, is_letter x = true)
    (c : Char) (k : List Char) (hc : is_letter c = false)
    (hw : is_whitespace n0 = false) :
    next_token ⟨ns ++ c :: k, n0⟩ = some (Token.fromIdent name, ⟨k, c⟩) := by
  have h0 : is_letter n0 = true := hlet n0 (by rw [hdata]; simp)
  rw [next_token_nonws _ _ hw, next_token_core_letter _ _ h0]
  rw [read_ident_go_all is_letter ns n0 "" c k h0
    (fun y hy => hlet y (by rw [hdata]; simp [hy])) hc]
  have : (⟨"".data ++ n0 :: ns⟩ : String) = name := by
    show (⟨n0 :: ns⟩ : String) = name
    rw [← hdata]
  rw [this]

theorem next_token_int (v : Int) (h1 : 1 ≤ v) (h2 : digits_to_nat 0 (toString v).data = some v.toNat) :
    ∀ (n0 : Char) (ns : List Char), (toString v).data = n0 :: ns →
    ∀ (c : Char) (k : List Char), is_digit c = false →
    next_token ⟨ns ++ c :: k, n0⟩ = some (⟨.Int, toString v⟩, ⟨k, c⟩) := by
  obtain ⟨c0, cs, hcons, hdig, hne, hval⟩ := int_toString_digits v h1
  intro n0 ns hdata d k hd
  rw [hdata] at hcons
  injection hcons with e1 e2
  subst e1
  subst e2
  have h0 : is_digit n0 = true := hdig n0 (by simp)
  rw [next_token_nonws _ _ (digit_not_ws h0), next_token_core_digit _ _ h0 hne]
  rw [read_ident_go_all is_digit ns n0 "" d k h0
    (fun y hy => hdig y (by simp [hy])) hd]
  have : (⟨"".data ++ n0 :: ns⟩ : String) = toString v := by
    show (⟨n0 :: ns⟩ : String) = toString v
    have : (toString v).data = n0 :: ns := hdata
    rw [← this]
  rw [this]

/-! ### Token streams -/

theorem produces_append {lx lxm lxf : Lexer} {ts us : List Token}
    (h1 : Produces lx ts lxm) (h2 : Produces lxm us lxf) :
    Produces lx (ts ++ us) lxf := by
  induction h1 with
  | nil => simpa using h2
  | cons hstep _ ih => exact Produces.cons hstep (ih h2)

theorem produces_head_congr {lxa lxb lxf : Lexer} {t : Token} {ts : List Token}
    (h : next_token lxa = next_token lxb)
    (hp : Produces lxb (t :: ts) lxf) : Produces lxa (t :: ts) lxf := by
  cases hp with
  | cons hstep hrest => exact Produces.cons (h ▸ hstep) hrest

/-! ### Single-symbol tokens -/

theorem next_token_lparen (x : Char) (t : List Char) :
    next_token ⟨x :: t, '('⟩ = some (⟨.LParen, "("⟩, ⟨t, x⟩) := rfl

theorem next_token_rparen (x : Char) (t : List Char) :
    next_token ⟨x :: t, ')'⟩ = some (⟨.RParen, ")"⟩, ⟨t, x⟩) := rfl

theorem next_token_minus (x : Char) (t : List Char) :
    next_token ⟨x :: t, '-'⟩ = some (⟨.Minus, "-"⟩, ⟨t, x⟩) := rfl

theorem next_token_bang (x : Char) (t : List Char) (h : x ≠ '=') :
    next_token ⟨x :: t, '!'⟩ = some (⟨.Bang, "!"⟩, ⟨t, x⟩) := by
  show (if peek_char ⟨x :: t, '!'⟩ = '=' then
      some ((⟨.NotEqual, "!="⟩ : Token), read_char (read_char ⟨x :: t, '!'⟩))
    else some ((⟨.Bang, String.singleton '!'⟩ : Token), read_char ⟨x :: t, '!'⟩))
      = some (⟨.Bang, "!"⟩, ⟨t, x⟩)
  rw [if_neg (show ¬ (peek_char ⟨x :: t, '!'⟩ = '=') from h)]
  rfl

theorem next_token_semi_end :
    next_token ⟨[], ';'⟩ = some (⟨.Semicolon, ";"⟩, ⟨[], '0'⟩) := rfl

theorem next_token_eof :
    next_token ⟨[], '0'⟩ = some (⟨.EOF, ""⟩, ⟨[], '0'⟩) := rfl

/-- An infix operator of the fragment, preceded by the space that the
printer puts before it and followed by the space after it. -/
theorem next_token_op (op : String)
    (hop : op = "+" ∨ op = "-" ∨ op = "*" ∨ op = "/" ∨ op = "<" ∨
      op = ">" ∨ op = "==" ∨ op = "!=") (Y : List Char) :
    next_token ⟨op.data ++ ' ' :: Y, ' '⟩ = some (infix_op_token op, ⟨Y, ' '⟩) := by
  rcases hop with rfl | rfl | rfl | rfl | rfl | rfl | rfl | rfl <;> rfl

/-! ### The printed form of fragment expressions -/

theorem str_data_append (a b : String) : (a ++ b).data = a.data ++ b.data := rfl

theorem as_string_pre (op : String) (r : Node) :
    (Node.as_string (.PrefixExpression op r)).data
      = '(' :: (op.data ++ ((Node.as_string r).data ++ [')'])) := by
  simp only [Node.as_string, str_data_append, List.append_assoc,
    List.cons_append, List.nil_append,
    show ("(" : String).data = ['('] from rfl,
    show (")" : String).data = [')'] from rfl]

theorem as_string_inf (l : Node) (op : String) (r : Node) :
    (Node.as_string (.InfixExpression l op r)).data
      = '(' :: ((Node.as_string l).data ++ (' ' :: (op.data ++
          (' ' :: ((Node.as_string r).data ++ [')']))))) := by
  simp only [Node.as_string, str_data_append, List.append_assoc,
    List.cons_append, List.nil_append,
    show ("(" : String).data = ['('] from rfl,
    show (")" : String).data = [')'] from rfl,
    show (" " : String).data = [' '] from rfl]

theorem delim_not_letter {c : Char} (h : is_delim c) : is_letter c = false := by
  rcases h with rfl | rfl | rfl <;> rfl

theorem delim_not_digit {c : Char} (h : is_delim c) : is_digit c = false := by
  rcases h with rfl | rfl | rfl <;> rfl

theorem print_head {e : Node} (he : ExprOk e) :
    ∃ p0 ps, (Node.as_string e).data = p0 :: ps ∧ p0 ≠ '=' := by
  cases he with
  | ident name h1 h2 h3 =>
    cases hname : name.data with
    | nil => exact absurd hname h1
    | cons a l =>
      refine ⟨a, l, hname, ?_⟩
      have hb := letter_toNat (h2 a (by rw [hname]; exact List.mem_cons_self a l))
      exact char_ne_of_toNat_ne '=' (show ('=' : Char).toNat = 61 from rfl)
        (by omega)
  | int v h1 h2 =>
    obtain ⟨c0, cs, hcons, hdig, hne, hval⟩ := int_toString_digits v h1
    refine ⟨c0, cs, hcons, ?_⟩
    have hb := digit_toNat (hdig c0 (by simp))
    exact char_ne_of_toNat_ne '=' (show ('=' : Char).toNat = 61 from rfl)
      (by omega)
  | bool b =>
    cases b
    · exact ⟨'f', ['a', 'l', 's', 'e'], rfl, by decide⟩
    · exact ⟨'t', ['r', 'u', 'e'], rfl, by decide⟩
  | pre op r hop hr =>
    exact ⟨'(', _, by rw [as_string_pre], by decide⟩
  | inf l op r hop hl hr =>
    exact ⟨'(', _, by rw [as_string_inf], by decide⟩

theorem tokens_of_ok {e : Node} (he : ExprOk e) :
    ∃ t ts, tokens_of e = t :: ts ∧
      (t.t = .Ident ∨ t.t = .Int ∨ t.t = .True ∨ t.t = .False ∨
        t.t = .LParen) := by
  cases he with
  | ident name h1 h2 h3 => exact ⟨_, _, rfl, Or.inl rfl⟩
  | int v h1 h2 => exact ⟨_, _, rfl, Or.inr (Or.inl rfl)⟩
  | bool b =>
    cases b
    · exact ⟨_, _, rfl, Or.inr (Or.inr (Or.inr (Or.inl rfl)))⟩
    · exact ⟨_, _, rfl, Or.inr (Or.inr (Or.inl rfl))⟩
  | pre op r hop hr => exact ⟨_, _, rfl, Or.inr (Or.inr (Or.inr (Or.inr rfl)))⟩
  | inf l op r hop hl hr =>
    exact ⟨_, _, rfl, Or.inr (Or.inr (Or.inr (Or.inr rfl)))⟩

/-- Lexing a printed fragment expression: the lexer turns the printed
characters back into exactly the expression's token list, stopping with
the trailing delimiter as its current character. -/
theorem lex_print {e : Node} (he : ExprOk e) :
    ∀ (p0 : Char) (ps : List Char) (c : Char) (k : List Char),
      is_delim c → (Node.as_string e).data = p0 :: ps →
      Produces ⟨ps ++ c :: k, p0⟩ (tokens_of e) ⟨k, c⟩ := by
  induction he with
  | ident name h1 h2 h3 =>
    intro p0 ps c k hc hdata
    refine Produces.cons ?_ (Produces.nil _)
    have hdata' : name.data = p0 :: ps := hdata
    have hlet0 : is_letter p0 = true := h2 p0 (by rw [hdata']; simp)
    have hstep := next_token_ident name p0 ps hdata' h2 c k
      (delim_not_letter hc) (letter_not_ws hlet0)
    rw [h3] at hstep
    exact hstep
  | int v h1 h2 =>
    intro p0 ps c k hc hdata
    refine Produces.cons ?_ (Produces.nil _)
    obtain ⟨c0, cs, hcons, hdig, hne, hval⟩ := int_toString_digits v h1
    exact next_token_int v h1 (by rw [hcons]; exact hval) p0 ps hdata c k
      (delim_not_digit hc)
  | bool b =>
    cases b
    · intro p0 ps c k hc hdata
      injection (show ('f' : Char) :: ['a', 'l', 's', 'e'] = p0 :: ps from hdata)
        with e1 e2
      subst e1
      subst e2
      refine Produces.cons ?_ (Produces.nil _)
      exact next_token_ident "false" 'f' ['a', 'l', 's', 'e'] rfl (by decide)
        c k (delim_not_letter hc) (by decide)
    · intro p0 ps c k hc hdata
      injection (show ('t' : Char) :: ['r', 'u', 'e'] = p0 :: ps from hdata)
        with e1 e2
      subst e1
      subst e2
      refine Produces.cons ?_ (Produces.nil _)
      exact next_token_ident "true" 't' ['r', 'u', 'e'] rfl (by decide)
        c k (delim_not_letter hc) (by decide)
  | pre op r hop hr ih =>
    intro p0 ps c k hc hdata
    rw [as_string_pre] at hdata
    injection hdata with e1 e2
    subst e1
    subst e2
    obtain ⟨r0, rps, hrd, hr_ne⟩ := print_head hr
    obtain ⟨rt0, rts, hrtok, -⟩ := tokens_of_ok hr
    rw [hrd]
    rcases hop with rfl | rfl
    · simp only [List.cons_append, List.append_assoc, List.nil_append,
        show ("-" : String).data = ['-'] from rfl]
      refine Produces.cons (next_token_lparen _ _) ?_
      refine Produces.cons (next_token_minus _ _) ?_
      refine produces_append (ih r0 rps ')' (c :: k) (Or.inr (Or.inl rfl)) hrd) ?_
      exact Produces.cons (next_token_rparen _ _) (Produces.nil _)
    · simp only [List.cons_append, List.append_assoc, List.nil_append,
        show ("!" : String).data = ['!'] from rfl]
      refine Produces.cons (next_token_lparen _ _) ?_
      refine Produces.cons (next_token_bang _ _ hr_ne) ?_
      refine produces_append (ih r0 rps ')' (c :: k) (Or.inr (Or.inl rfl)) hrd) ?_
      exact Produces.cons (next_token_rparen _ _) (Produces.nil _)
  | inf l op r hop hl hr ihl ihr =>
    intro p0 ps c k hc hdata
    rw [as_string_inf] at hdata
    injection hdata with e1 e2
    subst e1
    subst e2
    obtain ⟨l0, lps, hld, -⟩ := print_head hl
    obtain ⟨r0, rps, hrd, -⟩ := print_head hr
    obtain ⟨rt0, rts, hrtok, -⟩ := tokens_of_ok hr
    rw [hld, hrd]
    simp only [List.cons_append, List.append_assoc, List.nil_append]
    refine Produces.cons (next_token_lparen _ _) ?_
    refine produces_append
      (ihl l0 lps ' '
        (op.data ++ ' ' :: (r0 :: (rps ++ ')' :: c :: k)))
        (Or.inl rfl) hld) ?_
    refine Produces.cons (next_token_op op hop _) ?_
    refine produces_append ?_
      (Produces.cons (next_token_rparen _ _) (Produces.nil _))
    rw [hrtok]
    refine produces_head_congr
      (next_token_space r0 (rps ++ ')' :: c :: k)) ?_
    rw [← hrtok]
    exact ihr r0 rps ')' (c :: k) (Or.inr (Or.inl rfl)) hrd

/-! ### Parser steps over token streams -/

theorem advance_eq {lx lxm : Lexer} {t : Token} (curr peek : Token)
    (h : next_token lx = some (t, lxm)) :
    Parser.advance ⟨lx, curr, peek⟩ = some ⟨lxm, peek, t⟩ := by
  obtain ⟨tt, tv⟩ := t
  obtain ⟨inp, ch⟩ := lxm
  obtain ⟨pt, pv⟩ := peek
  show (match next_token lx with
    | none => none
    | some (⟨tt, tv⟩, ⟨inp, c⟩) =>
      some (⟨⟨inp, c⟩, ⟨pt, pv⟩, ⟨tt, tv⟩⟩ : Parser)) = _
  rw [h]

theorem streams_peek {p : Parser} {t0 t1 : Token} {rest : List Token}
    {lxf : Lexer} (h : streams p (t0 :: t1 :: rest) lxf) :
    p.curr_token = t0 ∧ p.peek_token = t1 := by
  obtain ⟨a, b, r, heq, hc, hp, -⟩ := h
  injection heq with e1 heq2
  injection heq2 with e2 e3
  subst e1
  subst e2
  exact ⟨hc, hp⟩

theorem streams_advance {p : Parser} {t0 t1 t2 : Token} {rest : List Token}
    {lxf : Lexer} (h : streams p (t0 :: t1 :: t2 :: rest) lxf) :
    ∃ p', Parser.advance p = some p' ∧ streams p' (t1 :: t2 :: rest) lxf := by
  obtain ⟨a, b, r, heq, hc, hp, hprod⟩ := h
  injection heq with e1 heq2
  injection heq2 with e2 e3
  subst e1
  subst e2
  subst e3
  cases hprod with
  | cons hstep hrest =>
  rename_i lxm
  obtain ⟨lx, curr, peek⟩ := p
  have hp' : peek = t1 := hp
  have hstep' : next_token lx = some (t2, lxm) := hstep
  exact ⟨⟨lxm, peek, t2⟩, advance_eq curr peek hstep',
    t1, t2, rest, rfl, hp', rfl, hrest⟩

/-- The infix loop stops as soon as the peeked token is a semicolon or
does not bind more tightly than the current precedence. -/
theorem loop_stop (fuel : Nat) (hf : 1 ≤ fuel) (q : Nat) (left : Node)
    (p : Parser)
    (hpk : p.peek_token.t = .Semicolon ∨ token_precedence p.peek_token.t ≤ q) :
    parse_expression_loop fuel q left p = some (.ok left, p) := by
  obtain ⟨f, rfl⟩ : ∃ f, fuel = f + 1 := ⟨fuel - 1, by omega⟩
  simp only [parse_expression_loop]
  rw [if_neg (by
    rintro ⟨hne, hlt⟩
    rcases hpk with h | h
    · exact hne h
    · have hcp : check_peek_precedence p = token_precedence p.peek_token.t := rfl
      omega)]

theorem parse_integer_literal_eq (v : Int) (h1 : 1 ≤ v)
    (h2 : v ≤ 9223372036854775807) (p : Parser)
    (hc : p.curr_token = ⟨.Int, toString v⟩) :
    parse_integer_literal p = .ok (Node.IntegerLiteral v) := by
  obtain ⟨c0, cs, hcons, hdig, hne, hval⟩ := int_toString_digits v h1
  have hd : p.curr_token.v.data = c0 :: cs := by rw [hc]; exact hcons
  simp only [parse_integer_literal, hd, hval]
  rw [if_pos (by omega : v.toNat ≤ 9223372036854775807)]
  rw [show Int.ofNat v.toNat = v from by
    rw [Int.ofNat_eq_coe]
    exact Int.toNat_of_nonneg (by omega)]

theorem prefix_term_ident (name : String) (p : Parser) (fuel : Nat)
    (hf : 1 ≤ fuel) (hc : p.curr_token = ⟨.Ident, name⟩) :
    parse_expression_prefix_term fuel p
      = some (.ok (Node.Identifier ⟨.Ident, name⟩), p) := by
  obtain ⟨f, rfl⟩ : ∃ f, fuel = f + 1 := ⟨fuel - 1, by omega⟩
  simp only [parse_expression_prefix_term, hc]

theorem prefix_term_int (v : Int) (h1 : 1 ≤ v)
    (h2 : v ≤ 9223372036854775807) (p : Parser) (fuel : Nat)
    (hf : 1 ≤ fuel) (hc : p.curr_token = ⟨.Int, toString v⟩) :
    parse_expression_prefix_term fuel p
      = some (.ok (Node.IntegerLiteral v), p) := by
  obtain ⟨f, rfl⟩ : ∃ f, fuel = f + 1 := ⟨fuel - 1, by omega⟩
  simp only [parse_expression_prefix_term, hc]
  rw [parse_integer_literal_eq v h1 h2 p hc]

theorem prefix_term_bool (b : Bool) (p : Parser) (fuel : Nat)
    (hf : 1 ≤ fuel)
    (hc : p.curr_token = if b then ⟨.True, "true"⟩ else ⟨.False, "false"⟩) :
    parse_expression_prefix_term fuel p
      = some (.ok (Node.Boolean b), p) := by
  obtain ⟨f, rfl⟩ : ∃ f, fuel = f + 1 := ⟨fuel - 1, by omega⟩
  cases b with
  | false =>
    replace hc : p.curr_token = ⟨.False, "false"⟩ := hc
    simp only [parse_expression_prefix_term, parse_boolean_expression, hc]
    rfl
  | true =>
    replace hc : p.curr_token = ⟨.True, "true"⟩ := hc
    simp only [parse_expression_prefix_term, parse_boolean_expression, hc]
    rfl

theorem L0_atom {e : Node} (tok : Token) (htok : tokens_of e = [tok])
    (hlast : last_token e = tok)
    (hpt : ∀ (p : Parser) (f : Nat), 1 ≤ f → p.curr_token = tok →
      parse_expression_prefix_term f p = some (.ok e, p)) :
    StmtL0 e := by
  intro p u us lxf fuel hfuel hstream
  rw [htok] at hstream
  obtain ⟨t0', t1', rest', heq, hcur, hpk, hprod⟩ := hstream
  injection (show tok :: u :: us = t0' :: t1' :: rest' from heq) with e1 heq2
  injection heq2 with e2 e3
  subst e1
  subst e2
  subst e3
  exact ⟨p, hpt p fuel (by omega) hcur,
    tok, u, us, by rw [hlast], hcur, hpk, hprod⟩

theorem L2_atom {e : Node} (tok : Token) (hinner : inner_tokens e = [tok])
    (hlast : inner_last e = tok)
    (hpt : ∀ (p : Parser) (f : Nat), 1 ≤ f → p.curr_token = tok →
      parse_expression_prefix_term f p = some (.ok e, p)) :
    StmtL2 e := by
  intro p u us lxf fuel hfuel hstream
  rw [hinner] at hstream
  obtain ⟨t0', t1', rest', heq, hcur, hpk, hprod⟩ := hstream
  injection (show tok :: ⟨.RParen, ")"⟩ :: u :: us = t0' :: t1' :: rest'
    from heq) with e1 heq2
  injection heq2 with e2 e3
  subst e1
  subst e2
  subst e3
  obtain ⟨f1, rfl⟩ : ∃ f, fuel = f + 1 := ⟨fuel - 1, by omega⟩
  refine ⟨p, ?_, tok, ⟨.RParen, ")"⟩, u :: us, by rw [hlast], hcur, hpk, hprod⟩
  simp only [parse_expression]
  rw [hpt p f1 (by omega) hcur]
  show parse_expression_loop f1 0 e p = some (.ok e, p)
  exact loop_stop f1 (by omega) 0 e p (Or.inr (by rw [hpk]; exact Nat.le.refl))

theorem L1_of_L0 {e : Node} (h0 : StmtL0 e) : StmtL1 e := by
  intro q p u us lxf fuel hfuel hb hstream
  obtain ⟨f1, rfl⟩ : ∃ f, fuel = f + 1 := ⟨fuel - 1, by omega⟩
  obtain ⟨p', hpt, hstream'⟩ := h0 p u us lxf f1 (by omega) hstream
  refine ⟨p', ?_, hstream'⟩
  simp only [parse_expression]
  rw [hpt]
  show parse_expression_loop f1 q e p' = some (.ok e, p')
  obtain ⟨-, hpk⟩ := streams_peek hstream'
  refine loop_stop f1 (by omega) q e p' ?_
  rw [hpk]
  exact hb

theorem L0_of_L2 {e : Node} (hL2 : StmtL2 e)
    (hshape : tokens_of e = ⟨.LParen, "("⟩ :: (inner_tokens e ++ [⟨.RParen, ")"⟩]))
    (hlast : last_token e = ⟨.RParen, ")"⟩)
    (hinner : ∃ i0 itail, inner_tokens e = i0 :: itail) :
    StmtL0 e := by
  intro p u us lxf fuel hfuel hstream
  obtain ⟨i0, itail, hi⟩ := hinner
  obtain ⟨x, xs, hx⟩ : ∃ x xs, itail ++ ⟨.RParen, ")"⟩ :: u :: us = x :: xs := by
    cases itail <;> exact ⟨_, _, rfl⟩
  rw [hshape, hi] at hstream
  simp only [List.cons_append, List.append_assoc, List.nil_append] at hstream
  obtain ⟨hcur, -⟩ := streams_peek (by rw [hx] at hstream; exact hstream)
  rw [hx] at hstream
  obtain ⟨p1, hadv, hstr1⟩ := streams_advance hstream
  rw [← hx] at hstr1
  rw [show i0 :: (itail ++ ⟨.RParen, ")"⟩ :: u :: us)
      = (i0 :: itail) ++ ⟨.RParen, ")"⟩ :: u :: us from rfl, ← hi] at hstr1
  obtain ⟨f1, rfl⟩ : ∃ f, fuel = f + 1 := ⟨fuel - 1, by omega⟩
  obtain ⟨f2, rfl⟩ : ∃ f, f1 = f + 1 := ⟨f1 - 1, by omega⟩
  obtain ⟨p2, hpe, hstr2⟩ := hL2 p1 u us lxf f2 (by omega) hstr1
  obtain ⟨-, hpk2⟩ := streams_peek hstr2
  obtain ⟨p3, hadv2, hstr3⟩ := streams_advance hstr2
  refine ⟨p3, ?_, by rw [hlast]; exact hstr3⟩
  simp only [parse_expression_prefix_term, hcur]
  show ((Parser.advance p).bind fun p =>
      (parse_expression f2 lowest_precedence p).bind fun rp =>
        match rp.1 with
        | Except.error err =>
          (some (Except.error err, rp.2) : Option (Except ParserError Node × Parser))
        | Except.ok exp =>
          (expect_peek TokenType.RParen rp.2).bind fun bp =>
            if !bp.1 then
              some (Except.error ParserError.GroupExpressionParsingFailed, bp.2)
            else some (Except.ok exp, bp.2))
    = some (Except.ok e, p3)
  rw [hadv]
  show ((parse_expression f2 lowest_precedence p1).bind fun rp =>
      match rp.1 with
      | Except.error err =>
        (some (Except.error err, rp.2) : Option (Except ParserError Node × Parser))
      | Except.ok exp =>
        (expect_peek TokenType.RParen rp.2).bind fun bp =>
          if !bp.1 then
            some (Except.error ParserError.GroupExpressionParsingFailed, bp.2)
          else some (Except.ok exp, bp.2))
    = some (Except.ok e, p3)
  rw [show parse_expression f2 lowest_precedence p1 = some (Except.ok e, p2) from hpe]
  show ((expect_peek TokenType.RParen p2).bind fun bp =>
      if !bp.1 then
        (some (Except.error ParserError.GroupExpressionParsingFailed, bp.2) :
          Option (Except ParserError Node × Parser))
      else some (Except.ok e, bp.2))
    = some (Except.ok e, p3)
  rw [show expect_peek TokenType.RParen p2 = some (true, p3) from by
    simp only [expect_peek, hpk2,
      show ({ t := TokenType.RParen, v := ")" } : Token).t = TokenType.RParen
        from rfl]
    rw [if_pos trivial, hadv2]
    rfl]
  rfl

theorem L2_pre {op : String} {r : Node} (hop : op = "-" ∨ op = "!")
    (hr1 : StmtL1 r) (hrtok : ∃ t ts, tokens_of r = t :: ts) :
    StmtL2 (.PrefixExpression op r) := by
  intro p u us lxf fuel hfuel hstream
  have hfuel' : 8 * (esize r + 1) + 2 ≤ fuel := hfuel
  obtain ⟨rt0, rts, hrtok'⟩ := hrtok
  rw [show inner_tokens (.PrefixExpression op r)
      = prefix_op_token op :: tokens_of r from rfl, hrtok'] at hstream
  simp only [List.cons_append] at hstream
  obtain ⟨hcur, -⟩ := streams_peek hstream
  obtain ⟨x, xs, hx⟩ : ∃ x xs, rts ++ ⟨.RParen, ")"⟩ :: u :: us = x :: xs := by
    cases rts <;> exact ⟨_, _, rfl⟩
  rw [hx] at hstream
  obtain ⟨p1, hadv, hstr1⟩ := streams_advance hstream
  rw [← hx, show rt0 :: (rts ++ ⟨.RParen, ")"⟩ :: u :: us)
      = (rt0 :: rts) ++ ⟨.RParen, ")"⟩ :: u :: us from rfl, ← hrtok'] at hstr1
  obtain ⟨f1, rfl⟩ : ∃ f, fuel = f + 1 := ⟨fuel - 1, by omega⟩
  obtain ⟨f2, rfl⟩ : ∃ f, f1 = f + 1 := ⟨f1 - 1, by omega⟩
  obtain ⟨f3, rfl⟩ : ∃ f, f2 = f + 1 := ⟨f2 - 1, by omega⟩
  obtain ⟨p2, hpe, hstr2⟩ := hr1 unary_precedence p1 ⟨.RParen, ")"⟩ (u :: us)
    lxf f3 (by omega) (Or.inr (Nat.zero_le _)) hstr1
  obtain ⟨-, hpk2⟩ := streams_peek hstr2
  have hpt : parse_expression_prefix_term (f3 + 1 + 1) p
      = some (.ok (Node.PrefixExpression op r), p2) := by
    rcases hop with rfl | rfl
    · have hcur' : p.curr_token = ⟨.Minus, "-"⟩ := hcur
      simp only [parse_expression_prefix_term, hcur']
      show ((Parser.advance p).bind fun p' =>
          (parse_expression f3 unary_precedence p').bind fun rp =>
            match rp.1 with
            | Except.error err =>
              (some (Except.error err, rp.2) :
                Option (Except ParserError Node × Parser))
            | Except.ok right =>
              some (Except.ok (Node.PrefixExpression p.curr_token.v right), rp.2))
        = some (Except.ok (Node.PrefixExpression "-" r), p2)
      rw [hadv]
      show ((parse_expression f3 unary_precedence p1).bind fun rp =>
          match rp.1 with
          | Except.error err =>
            (some (Except.error err, rp.2) :
              Option (Except ParserError Node × Parser))
          | Except.ok right =>
            some (Except.ok (Node.PrefixExpression p.curr_token.v right), rp.2))
        = some (Except.ok (Node.PrefixExpression "-" r), p2)
      rw [hpe]
      show some (Except.ok (Node.PrefixExpression p.curr_token.v r), p2)
        = some (Except.ok (Node.PrefixExpression "-" r), p2)
      rw [hcur']
    · have hcur' : p.curr_token = ⟨.Bang, "!"⟩ := hcur
      simp only [parse_expression_prefix_term, hcur']
      show ((Parser.advance p).bind fun p' =>
          (parse_expression f3 unary_precedence p').bind fun rp =>
            match rp.1 with
            | Except.error err =>
              (some (Except.error err, rp.2) :
                Option (Except ParserError Node × Parser))
            | Except.ok right =>
              some (Except.ok (Node.PrefixExpression p.curr_token.v right), rp.2))
        = some (Except.ok (Node.PrefixExpression "!" r), p2)
      rw [hadv]
      show ((parse_expression f3 unary_precedence p1).bind fun rp =>
          match rp.1 with
          | Except.error err =>
            (some (Except.error err, rp.2) :
              Option (Except ParserError Node × Parser))
          | Except.ok right =>
            some (Except.ok (Node.PrefixExpression p.curr_token.v right), rp.2))
        = some (Except.ok (Node.PrefixExpression "!" r), p2)
      rw [hpe]
      show some (Except.ok (Node.PrefixExpression p.curr_token.v r), p2)
        = some (Except.ok (Node.PrefixExpression "!" r), p2)
      rw [hcur']
  refine ⟨p2, ?_, hstr2⟩
  simp only [parse_expression]
  rw [hpt]
  show parse_expression_loop (f3 + 1 + 1) 0 (Node.PrefixExpression op r) p2
    = some (.ok (Node.PrefixExpression op r), p2)
  exact loop_stop _ (by omega) 0 _ p2 (Or.inr (by rw [hpk2]; exact Nat.le.refl))

theorem L2_inf {l : Node} {op : String} {r : Node}
    (hop : op = "+" ∨ op = "-" ∨ op = "*" ∨ op = "/" ∨ op = "<" ∨
      op = ">" ∨ op = "==" ∨ op = "!=")
    (hl0 : StmtL0 l) (hr1 : StmtL1 r)
    (hrtok : ∃ t ts, tokens_of r = t :: ts) :
    StmtL2 (.InfixExpression l op r) := by
  have hopf : (infix_op_token op).t ≠ TokenType.Semicolon ∧
      0 < token_precedence (infix_op_token op).t ∧
      (infix_op_token op).v = op := by
    rcases hop with rfl | rfl | rfl | rfl | rfl | rfl | rfl | rfl <;>
      exact ⟨by decide, by decide, rfl⟩
  have hskp : ∀ p' : Parser, p'.peek_token = infix_op_token op →
      should_keep_parsing p' = true := by
    intro p' h
    rcases hop with rfl | rfl | rfl | rfl | rfl | rfl | rfl | rfl <;>
      (simp only [should_keep_parsing, h]; rfl)
  intro p u us lxf fuel hfuel hstream
  have hfuel' : 8 * (esize l + esize r + 1) + 2 ≤ fuel := hfuel
  obtain ⟨rt0, rts, hrtok'⟩ := hrtok
  rw [show inner_tokens (.InfixExpression l op r)
      = tokens_of l ++ infix_op_token op :: tokens_of r from rfl] at hstream
  simp only [List.append_assoc, List.cons_append] at hstream
  obtain ⟨f1, rfl⟩ : ∃ f, fuel = f + 1 := ⟨fuel - 1, by omega⟩
  obtain ⟨p1, hptl, hstr1⟩ := hl0 p (infix_op_token op)
    (tokens_of r ++ ⟨.RParen, ")"⟩ :: u :: us) lxf f1 (by omega) hstream
  obtain ⟨-, hpk1⟩ := streams_peek hstr1
  rw [hrtok'] at hstr1
  simp only [List.cons_append] at hstr1
  obtain ⟨p2, hadv1, hstr2⟩ := streams_advance hstr1
  obtain ⟨hcur2, -⟩ := streams_peek hstr2
  obtain ⟨x, xs, hx⟩ : ∃ x xs, rts ++ ⟨.RParen, ")"⟩ :: u :: us = x :: xs := by
    cases rts <;> exact ⟨_, _, rfl⟩
  rw [hx] at hstr2
  obtain ⟨p3, hadv2, hstr3⟩ := streams_advance hstr2
  rw [← hx, show rt0 :: (rts ++ ⟨.RParen, ")"⟩ :: u :: us)
      = (rt0 :: rts) ++ ⟨.RParen, ")"⟩ :: u :: us from rfl, ← hrtok'] at hstr3
  obtain ⟨f2, rfl⟩ : ∃ f, f1 = f + 1 := ⟨f1 - 1, by omega⟩
  obtain ⟨f3, rfl⟩ : ∃ f, f2 = f + 1 := ⟨f2 - 1, by omega⟩
  obtain ⟨p4, hper, hstr4⟩ := hr1 (token_precedence (infix_op_token op).t) p3
    ⟨.RParen, ")"⟩ (u :: us) lxf f3 (by omega) (Or.inr (Nat.zero_le _)) hstr3
  obtain ⟨-, hpk4⟩ := streams_peek hstr4
  have hinf : parse_infix_expression (f3 + 1) l p2
      = some (Except.ok (Node.InfixExpression l op r), p4) := by
    show ((Parser.advance p2).bind fun p' =>
        (parse_expression f3 (check_curr_precedence p2) p').bind fun rp =>
          match rp.1 with
          | Except.error err =>
            (some (Except.error err, rp.2) :
              Option (Except ParserError Node × Parser))
          | Except.ok right =>
            some (Except.ok (Node.InfixExpression l p2.curr_token.v right), rp.2))
      = some (Except.ok (Node.InfixExpression l op r), p4)
    rw [hadv2]
    show ((parse_expression f3 (check_curr_precedence p2) p3).bind fun rp =>
        match rp.1 with
        | Except.error err =>
          (some (Except.error err, rp.2) :
            Option (Except ParserError Node × Parser))
        | Except.ok right =>
          some (Except.ok (Node.InfixExpression l p2.curr_token.v right), rp.2))
      = some (Except.ok (Node.InfixExpression l op r), p4)
    rw [show check_curr_precedence p2 = token_precedence (infix_op_token op).t
      from by
        rw [show check_curr_precedence p2 = token_precedence p2.curr_token.t
          from rfl, hcur2]]
    rw [hper]
    show some (Except.ok (Node.InfixExpression l p2.curr_token.v r), p4)
      = some (Except.ok (Node.InfixExpression l op r), p4)
    rw [hcur2, hopf.2.2]
  refine ⟨p4, ?_, hstr4⟩
  simp only [parse_expression]
  rw [hptl]
  show parse_expression_loop (f3 + 1 + 1) 0 l p1
    = some (Except.ok (Node.InfixExpression l op r), p4)
  show (if p1.peek_token.t ≠ TokenType.Semicolon ∧ 0 < check_peek_precedence p1
      then
        if !should_keep_parsing p1 then some (Except.ok l, p1)
        else
          (Parser.advance p1).bind fun p' =>
            (parse_infix_expression (f3 + 1) l p').bind fun rp =>
              match rp.1 with
              | Except.error err =>
                (some (Except.error err, rp.2) :
                  Option (Except ParserError Node × Parser))
              | Except.ok left' => parse_expression_loop (f3 + 1) 0 left' rp.2
      else some (Except.ok l, p1))
    = some (Except.ok (Node.InfixExpression l op r), p4)
  rw [if_pos (show p1.peek_token.t ≠ TokenType.Semicolon ∧
      0 < check_peek_precedence p1 from
    ⟨by rw [hpk1]; exact hopf.1,
     by rw [show check_peek_precedence p1 = token_precedence p1.peek_token.t
         from rfl, hpk1]; exact hopf.2.1⟩)]
  rw [hskp p1 hpk1]
  rw [if_neg (by decide : ¬ ((!true) = true))]
  rw [hadv1]
  show ((parse_infix_expression (f3 + 1) l p2).bind fun rp =>
      match rp.1 with
      | Except.error err =>
        (some (Except.error err, rp.2) :
          Option (Except ParserError Node × Parser))
      | Except.ok left' => parse_expression_loop (f3 + 1) 0 left' rp.2)
    = some (Except.ok (Node.InfixExpression l op r), p4)
  rw [hinf]
  show parse_expression_loop (f3 + 1) 0 (Node.InfixExpression l op r) p4
    = some (Except.ok (Node.InfixExpression l op r), p4)
  exact loop_stop _ (by omega) 0 _ p4 (Or.inr (by rw [hpk4]; exact Nat.le.refl))

/-- The three parser facts together, by strong induction on the size of
the fragment expression. -/
theorem parse_expr_all : ∀ N e, ExprOk e → esize e = N →
    StmtL2 e ∧ StmtL0 e ∧ StmtL1 e := by
  intro N
  induction N using Nat.strong_induction_on with
  | _ N ih =>
  intro e he hsz
  have hL2 : StmtL2 e := by
    cases he with
    | ident name h1 h2 h3 =>
      exact L2_atom ⟨.Ident, name⟩ rfl rfl
        (fun p f hf hc => prefix_term_ident name p f hf hc)
    | int v h1 h2 =>
      exact L2_atom ⟨.Int, toString v⟩ rfl rfl
        (fun p f hf hc => prefix_term_int v h1 h2 p f hf hc)
    | bool b =>
      cases b
      · exact L2_atom ⟨.False, "false"⟩ rfl rfl
          (fun p f hf hc => prefix_term_bool false p f hf hc)
      · exact L2_atom ⟨.True, "true"⟩ rfl rfl
          (fun p f hf hc => prefix_term_bool true p f hf hc)
    | pre op r hop hr =>
      have hszr : esize r + 1 = N := hsz
      obtain ⟨-, -, hr1⟩ := ih (esize r) (by omega) r hr rfl
      exact L2_pre hop hr1
        (by obtain ⟨t, ts, h, -⟩ := tokens_of_ok hr; exact ⟨t, ts, h⟩)
    | inf l op r hop hl hr =>
      have hszr : esize l + esize r + 1 = N := hsz
      have hr1 : 1 ≤ esize r := by cases r <;> simp [esize] <;> omega
      obtain ⟨-, hl0, -⟩ := ih (esize l) (by omega) l hl rfl
      obtain ⟨-, -, hr1'⟩ := ih (esize r) (by
        have hl1 : 1 ≤ esize l := by cases l <;> simp [esize] <;> omega
        omega) r hr rfl
      exact L2_inf hop hl0 hr1'
        (by obtain ⟨t, ts, h, -⟩ := tokens_of_ok hr; exact ⟨t, ts, h⟩)
  have hL0 : StmtL0 e := by
    cases he with
    | ident name h1 h2 h3 =>
      exact L0_atom ⟨.Ident, name⟩ rfl rfl
        (fun p f hf hc => prefix_term_ident name p f hf hc)
    | int v h1 h2 =>
      exact L0_atom ⟨.Int, toString v⟩ rfl rfl
        (fun p f hf hc => prefix_term_int v h1 h2 p f hf hc)
    | bool b =>
      cases b
      · exact L0_atom ⟨.False, "false"⟩ rfl rfl
          (fun p f hf hc => prefix_term_bool false p f hf hc)
      · exact L0_atom ⟨.True, "true"⟩ rfl rfl
          (fun p f hf hc => prefix_term_bool true p f hf hc)
    | pre op r hop hr =>
      exact L0_of_L2 hL2 rfl rfl ⟨_, _, rfl⟩
    | inf l op r hop hl hr =>
      refine L0_of_L2 hL2 ?_ rfl ?_
      · show tokens_of (.InfixExpression l op r) = ⟨.LParen, "("⟩ ::
          (inner_tokens (.InfixExpression l op r) ++ [⟨.RParen, ")"⟩])
        rw [show inner_tokens (.InfixExpression l op r)
            = tokens_of l ++ infix_op_token op :: tokens_of r from rfl]
        rw [show tokens_of (.InfixExpression l op r)
            = ⟨.LParen, "("⟩ :: (tokens_of l ++ infix_op_token op ::
                (tokens_of r ++ [⟨.RParen, ")"⟩])) from rfl]
        simp [List.append_assoc]
      · obtain ⟨t, ts, h, -⟩ := tokens_of_ok hl
        rw [show inner_tokens (.InfixExpression l op r)
            = tokens_of l ++ infix_op_token op :: tokens_of r from rfl, h]
        exact ⟨_, _, rfl⟩
  exact ⟨hL2, hL0, L1_of_L0 hL0⟩

theorem parser_new_of_produces {lx lxf : Lexer} {t0 t1 : Token}
    {rest : List Token} (h : Produces lx (t0 :: t1 :: rest) lxf) :
    ∃ p, Parser.new lx = some p ∧ streams p (t0 :: t1 :: rest) lxf := by
  cases h with
  | cons hstep1 h2 =>
  rename_i lxm1
  cases h2 with
  | cons hstep2 h3 =>
  rename_i lxm2
  refine ⟨⟨lxm2, t0, t1⟩, ?_, t0, t1, rest, rfl, rfl, rfl, h3⟩
  show (Parser.advance ⟨lx, ⟨.Illegal, ""⟩, ⟨.Illegal, ""⟩⟩).bind Parser.advance
    = some ⟨lxm2, t0, t1⟩
  rw [advance_eq ⟨.Illegal, ""⟩ ⟨.Illegal, ""⟩ hstep1]
  show Parser.advance ⟨lxm1, ⟨.Illegal, ""⟩, t0⟩ = some ⟨lxm2, t0, t1⟩
  rw [advance_eq ⟨.Illegal, ""⟩ t0 hstep2]

theorem program_data (e : Node) :
    (program_as_string [Node.ExpressionStatement (some e)]).data
      = (Node.as_string e).data ++ [';'] := by
  simp only [program_as_string, Node.as_string_list, Node.as_string,
    String.join, List.foldl, str_data_append,
    show ("" : String).data = ([] : List Char) from rfl,
    show (";" : String).data = [';'] from rfl, List.nil_append]

/-- Full round trip for a fragment expression statement: printing it and
re-parsing the print yields exactly the one original statement, with no
parse errors. -/
theorem round_trip_expr_statement {e : Node} (he : ExprOk e) :
    ∀ fuel, 8 * esize e + 9 ≤ fuel →
    parse_from_string fuel
        (program_as_string [Node.ExpressionStatement (some e)])
      = some ([Node.ExpressionStatement (some e)], []) := by
  intro fuel hfuel
  obtain ⟨p0, ps, hdata, -⟩ := print_head he
  have hd : (program_as_string [Node.ExpressionStatement (some e)]).data
      = p0 :: (ps ++ [';']) := by rw [program_data, hdata]; rfl
  have hprod : Produces ⟨ps ++ [';'], p0⟩
      (tokens_of e ++ [⟨.Semicolon, ";"⟩, ⟨.EOF, ""⟩, ⟨.EOF, ""⟩]) ⟨[], '0'⟩ :=
    produces_append (lex_print he p0 ps ';' [] (Or.inr (Or.inr rfl)) hdata)
      (Produces.cons next_token_semi_end
        (Produces.cons next_token_eof
          (Produces.cons next_token_eof (Produces.nil _))))
  obtain ⟨et0, ets, hetok, hehead⟩ := tokens_of_ok he
  rw [hetok] at hprod
  simp only [List.cons_append] at hprod
  obtain ⟨x, xs, hx⟩ : ∃ x xs,
      ets ++ [(⟨.Semicolon, ";"⟩ : Token), ⟨.EOF, ""⟩, ⟨.EOF, ""⟩]
        = x :: xs := by
    cases ets <;> exact ⟨_, _, rfl⟩
  rw [hx] at hprod
  obtain ⟨pp, hpnew, hstr0⟩ := parser_new_of_produces hprod
  obtain ⟨hcur0, -⟩ := streams_peek hstr0
  rw [← hx, show et0 ::
      (ets ++ [(⟨.Semicolon, ";"⟩ : Token), ⟨.EOF, ""⟩, ⟨.EOF, ""⟩])
      = (et0 :: ets) ++ [(⟨.Semicolon, ";"⟩ : Token), ⟨.EOF, ""⟩, ⟨.EOF, ""⟩]
      from rfl, ← hetok] at hstr0
  obtain ⟨-, -, hL1⟩ := parse_expr_all (esize e) e he rfl
  obtain ⟨f1, rfl⟩ : ∃ f, fuel = f + 1 := ⟨fuel - 1, by omega⟩
  obtain ⟨f2, rfl⟩ : ∃ f, f1 = f + 1 := ⟨f1 - 1, by omega⟩
  obtain ⟨f3, rfl⟩ : ∃ f, f2 = f + 1 := ⟨f2 - 1, by omega⟩
  obtain ⟨p', hpe, hstr'⟩ := hL1 0 pp ⟨.Semicolon, ";"⟩
    [⟨.EOF, ""⟩, ⟨.EOF, ""⟩] ⟨[], '0'⟩ f3 (by omega) (Or.inl rfl) hstr0
  obtain ⟨-, hpk'⟩ := streams_peek hstr'
  obtain ⟨p2, hadv1, hstr2⟩ := streams_advance hstr'
  obtain ⟨p3, hadv2, hstr3⟩ := streams_advance hstr2
  obtain ⟨hcur3, -⟩ := streams_peek hstr3
  have hlx : Lexer.new (program_as_string [Node.ExpressionStatement (some e)])
      = some ⟨ps ++ [';'], p0⟩ := by
    simp only [Lexer.new, hd]
  have hdisp : parse_statement (f3 + 1 + 1) pp
      = parse_expression_statement (f3 + 1) pp := by
    rcases hehead with h | h | h | h | h <;> simp only [parse_statement, hcur0, h]
  have hps : parse_statement (f3 + 1 + 1) pp
      = some (.ok (Node.ExpressionStatement (some e)), p2) := by
    rw [hdisp]
    simp only [parse_expression_statement, lowest_precedence, hpe,
      Option.some_bind]
    rw [if_pos (by rw [hpk'])]
    rw [hadv1]
    rfl
  simp only [parse_from_string]
  rw [hlx]
  show ((Parser.new ⟨ps ++ [';'], p0⟩).bind fun p =>
      parse_program_loop (f3 + 1 + 1 + 1) [] [] p)
    = some ([Node.ExpressionStatement (some e)], [])
  rw [hpnew]
  show parse_program_loop (f3 + 1 + 1 + 1) [] [] pp
    = some ([Node.ExpressionStatement (some e)], [])
  simp only [parse_program_loop]
  rw [if_neg (by rw [hcur0]; rcases hehead with h | h | h | h | h <;>
    (rw [h]; decide))]
  simp only [hps, Option.some_bind, hadv2]
  rw [if_pos (by rw [hcur3])]
  rfl

/-- C1: the spec claims the closure program evaluates to `Integer(20)`, but
this parser drops `let` initializers and cannot parse call expressions, so
`add` is never bound and the pipeline yields
`Error("identifier not found: add")`. -/
theorem claim1_pipeline_result :
    interpret 50 30
        "let add = fn(x, y) \x7b x + y; \x7d; add(5 + 5, add(5, 5));"
      = some (Object.Error "identifier not found: add") ∧
    Object.Error "identifier not found: add" ≠ Object.Integer 20 := by
  exact ⟨rfl, by simp⟩

/-- C2: the spec claims the nested-return program evaluates to
`Integer(10)`, but `parse_return_statement` discards the returned
expression (`value: None`), so the pipeline yields `Null`. -/
theorem claim2_pipeline_result :
    interpret 50 30
        "if (10 > 1) \x7b if (10 > 1) \x7b return 10; \x7d return 1; \x7d;"
      = some Object.Null ∧
    Object.Null ≠ Object.Integer 10 := by
  exact ⟨rfl, by simp⟩

/-- C3: the spec claims `parse_program` terminates on every finite input,
but on `"let x = 5"` (no terminating semicolon) the lexer's `read_ident`
loop never exits — trying to read the token after `5` it hits the
end-of-input sentinel `'0'`, which `is_digit` accepts — so the parser never
returns, whatever the fuel. -/
theorem claim3_parser_never_returns :
    ∀ fuel : Nat, parse_from_string fuel "let x = 5" = none := fun fuel =>
  match fuel with
  | 0 => rfl
  | 1 => rfl
  | _ + 2 => rfl

/-- C4 counterexample: `eval` clones the environment into the `Function`
object, so after `let x = 1; let f = fn() { x; }; let x = 2;` the call
`f()` still sees the snapshot value 1, not the updated binding 2 that the
claim requires. -/
theorem claim4_counterexample :
    (eval_program 30 capture_test_program Environment.new).map (fun oe => oe.1)
      = some (Object.Integer 1) ∧
    some (Object.Integer 1) ≠ some (Object.Integer 2) := by
  exact ⟨rfl, by simp⟩

/-- C4 amended: a function value captures a deep copy of the
definition-site environment — the `Function` object stores exactly the
environment value current at evaluation of the `fn` literal — so a later
re-binding in the defining scope is not observed: the capture-test program
evaluates to the capture-time value 1. -/
theorem claim4_snapshot_capture :
    (∀ (fuel : Nat) (parameters : List Node) (body : Node) (env : Environment),
      eval (fuel + 1) (Node.FunctionLiteral parameters body) env
        = some (Object.Function parameters body env, env)) ∧
    (eval_program 30 capture_test_program Environment.new).map (fun oe => oe.1)
      = some (Object.Integer 1) :=
  ⟨fun _ _ _ _ => rfl, rfl⟩

/-- C5: the parser's fully parenthesized re-serialization of `"-a * b;"`
is `"((-a) * b);"` and of `"a + b * c + d / e - f;"` is
`"(((a + (b * c)) + (d / e)) - f);"`, with no parse errors. -/
theorem claim5_precedence_reserialization :
    (parse_from_string 50 "-a * b;").map
        (fun pr => (program_as_string pr.1, pr.2))
      = some ("((-a) * b);", []) ∧
    (parse_from_string 50 "a + b * c + d / e - f;").map
        (fun pr => (program_as_string pr.1, pr.2))
      = some ("(((a + (b * c)) + (d / e)) - f);", []) :=
  ⟨rfl, rfl⟩

/-- C6: integer division by zero is not turned into an `Error` object and
returns no value at all — the unguarded `/` panics (`none`), both at the
`INTEGER / INTEGER` rule directly and through the full pipeline on
`"10 / (5 - 5);"`, which parses cleanly. -/
theorem claim6_division_by_zero_panics :
    (∀ left : Int, eval_integer_infix_expression "/" left 0 = none) ∧
    parse_from_string 50 "10 / (5 - 5);" = some (div_zero_statements, []) ∧
    ∀ fuel : Nat, eval_program fuel div_zero_statements Environment.new = none :=
  ⟨fun _ => rfl, rfl, fun fuel =>
    match fuel with
    | 0 => rfl
    | 1 => rfl
    | 2 => rfl
    | 3 => rfl
    | 4 => rfl
    | _ + 5 => rfl⟩

/-- C7: an infix expression over operands that are not both integers, with
an operator other than `==`/`!=`, yields `"type mismatch: <L> <op> <R>"`
when the operand type names differ and `"unknown operator: <L> <op> <R>"`
when they coincide; in particular `"5 + true;"` and `"true + false;"`. -/
theorem claim7_infix_type_errors :
    (∀ (left right : Object) (operator : String),
      (left.is_integer && right.is_integer) = false →
      operator ≠ "==" → operator ≠ "!=" →
      eval_infix_expression operator left right
        = some (.Error
            (if left.name = right.name then
              "unknown operator: " ++ left.name ++ " " ++ operator ++ " "
                ++ right.name
             else
              "type mismatch: " ++ left.name ++ " " ++ operator ++ " "
                ++ right.name))) ∧
    interpret 50 30 "5 + true;"
      = some (Object.Error "type mismatch: INTEGER + BOOLEAN") ∧
    interpret 50 30 "true + false;"
      = some (Object.Error "unknown operator: BOOLEAN + BOOLEAN") := by
  refine ⟨?_, rfl, rfl⟩
  intro left right operator h h1 h2
  cases left <;> cases right <;>
    simp_all [eval_infix_expression, Object.is_integer, Object.name]

/-- C7 witness: the general statement applied at `5 + true`. -/
theorem claim7_witness :
    eval_infix_expression "+" (Object.Integer 5) (Object.Boolean true)
      = some (Object.Error "type mismatch: INTEGER + BOOLEAN") := by
  have h := claim7_infix_type_errors.1 (Object.Integer 5) (Object.Boolean true)
    "+" rfl (by decide) (by decide)
  simpa using h

/-- C8 counterexample: three grammar forms do not survive the
print-and-re-parse round trip. A let statement re-prints as `let x;`
(its initializer was dropped at parse time), which re-parses to no
statement at all, with errors. An if expression prints `if` with no
space and its block without braces (`ifa b;;`), which re-parses to two
identifier statements plus an error. A function literal prints its block
without braces (`fn(a) b;;`), which re-parses to no statement with two
errors. -/
theorem claim8_counterexample :
    (parse_from_string 50 "let x = 5;"
        = some ([Node.LetStatement (Node.Identifier ⟨.Ident, "x"⟩) none], []) ∧
      program_as_string [Node.LetStatement (Node.Identifier ⟨.Ident, "x"⟩) none]
        = "let x;" ∧
      parse_from_string 50 "let x;"
        = some ([], [ParserError.AssignExpected, ParserError.TokenUnrecognized]) ∧
      ([] : List Node)
        ≠ [Node.LetStatement (Node.Identifier ⟨.Ident, "x"⟩) none]) ∧
    (parse_from_string 50 "if (a) \x7b b; \x7d;"
        = some (if_round_trip_statements, []) ∧
      program_as_string if_round_trip_statements = "ifa b;;" ∧
      parse_from_string 50 "ifa b;;"
        = some ([Node.ExpressionStatement (some (.Identifier ⟨.Ident, "ifa"⟩)),
                 Node.ExpressionStatement (some (.Identifier ⟨.Ident, "b"⟩))],
                [ParserError.TokenUnrecognized]) ∧
      [Node.ExpressionStatement (some (Node.Identifier ⟨.Ident, "ifa"⟩)),
       Node.ExpressionStatement (some (Node.Identifier ⟨.Ident, "b"⟩))]
        ≠ if_round_trip_statements) ∧
    (parse_from_string 50 "fn(a) \x7b b; \x7d;"
        = some (fn_round_trip_statements, []) ∧
      program_as_string fn_round_trip_statements = "fn(a) b;;" ∧
      parse_from_string 50 "fn(a) b;;"
        = some ([], [ParserError.TokenUnrecognized,
                     ParserError.TokenUnrecognized]) ∧
      ([] : List Node) ≠ fn_round_trip_statements) := by
  refine ⟨⟨rfl, rfl, rfl, by simp⟩, ⟨rfl, rfl, rfl, ?_⟩,
    ⟨rfl, rfl, rfl, by simp [fn_round_trip_statements]⟩⟩
  simp [if_round_trip_statements]

/-- C8: the round trip does hold on the expression fragment the parser
can actually produce: for every expression statement built from
identifiers, positive 64-bit integer literals, booleans, the prefix
operators - and !, and the eight infix operators, nested arbitrarily,
re-parsing the statement's string reconstruction yields exactly the
original one-statement program with no parse errors; the value-less
`return;` statement also round-trips. -/
theorem claim8_round_trip_fragment :
    (∀ e : Node, ExprOk e → ∀ fuel, 8 * esize e + 9 ≤ fuel →
      parse_from_string fuel
          (program_as_string [Node.ExpressionStatement (some e)])
        = some ([Node.ExpressionStatement (some e)], [])) ∧
    round_trips "return;" = true :=
  ⟨fun e he fuel h => round_trip_expr_statement he fuel h, rfl⟩

/-- Witness for C8's round-trip theorem at the concrete statement
`(a + 5);`. -/
theorem claim8_round_trip_fragment_witness :
    parse_from_string 33
        (program_as_string [Node.ExpressionStatement (some
          (Node.InfixExpression (Node.Identifier ⟨.Ident, "a"⟩) "+"
            (Node.IntegerLiteral 5)))])
      = some ([Node.ExpressionStatement (some
          (Node.InfixExpression (Node.Identifier ⟨.Ident, "a"⟩) "+"
            (Node.IntegerLiteral 5)))], []) :=
  claim8_round_trip_fragment.1
    (Node.InfixExpression (Node.Identifier ⟨.Ident, "a"⟩) "+"
      (Node.IntegerLiteral 5))
    (ExprOk.inf _ _ _ (Or.inl rfl)
      (ExprOk.ident "a" (by decide) (by decide) (by decide))
      (ExprOk.int 5 (by decide) (by decide)))
    33 (by decide)

/-- C9: whenever the current character after whitespace-skipping is the
digit `'0'`, `next_token` emits the end-of-input token — `'0'` doubles as
the lexer's EOF sentinel — so a source text starting a token with `0` ends
the token stream there, as the concrete inputs `"0;"` and `"0 7;"` show. -/
theorem claim9_zero_sentinel_eof :
    (∀ lx : Lexer, (eat_whitespace lx).ch = '0' →
      next_token lx = some (⟨.EOF, ""⟩, read_char (eat_whitespace lx))) ∧
    (Lexer.new "0;").bind next_token = some (⟨.EOF, ""⟩, ⟨[], ';'⟩) ∧
    (Lexer.new "0 7;").bind next_token
      = some (⟨.EOF, ""⟩, ⟨['7', ';'], ' '⟩) := by
  refine ⟨?_, rfl, rfl⟩
  intro lx h
  simp only [next_token, next_token_core, h]
  rfl

/-- C9 witness: the general statement applied to the lexer state at end of
input. -/
theorem claim9_witness :
    next_token ⟨[], '0'⟩ = some (⟨TokenType.EOF, ""⟩, ⟨[], '0'⟩) :=
  claim9_zero_sentinel_eof.1 ⟨[], '0'⟩ rfl

/-- C10: `Lexer::new` unwraps the first character of the input, so on the
empty source text it panics and no token — in particular no EOF token — is
ever produced. -/
theorem claim10_empty_input_panics : Lexer.new "" = none := rfl

